import Mathlib

/-!
Shallow embedding of `src/buffer/lru_k_replacer.cpp` (BusTub LRU-K replacer).

State fields mirror the C++ members.  The C++ maps `recorded_cnt_`, `hist`
and `evictable_` are `std::unordered_map`s whose `operator[]` default-inserts
a zero value; they are modelled as total functions with those defaults
(an absent entry and a default entry are indistinguishable to the code,
which never iterates these maps).  The iterator caches `new_locate_` and
`cache_locate_` always point at the unique list node of a given frame id,
so list erasure through them is modelled as erasing the first matching
node (`List.eraseP`); `new_frame_.remove(frame)` removes every node equal
to `frame`, modelled as `List.filter`.  `frame_id_t` is a signed 32-bit
integer, modelled as `Int`.  `std::upper_bound` + `insert` on the sorted
`cache_frame_` list is modelled by linear insertion before the first
strictly greater timestamp, which is its behaviour on sorted input.
-/

namespace LRUK

/-- The two failure causes of the C++ `throw std::exception()` sites:
an out-of-range frame id, or `Remove` on a non-evictable frame. -/
inductive RErr where
  | invalidFrame
  | notEvictable
deriving DecidableEq

/-- Pointwise update of a total map, standing in for `m[x] = v`. -/
def fupd {α : Type} (m : Int → α) (x : Int) (v : α) : Int → α :=
  fun y => if y = x then v else m y

/-- State of `LRUKReplacer`; field names follow the C++ members. -/
structure LRUKReplacer where
  replacer_size_ : Nat
  k_ : Nat
  current_timestamp_ : Nat
  curr_size_ : Nat
  recorded_cnt_ : Int → Nat
  hist : Int → List Nat
  evictable_ : Int → Bool
  new_frame_ : List Int
  cache_frame_ : List (Int × Nat)

namespace LRUKReplacer

/-- `LRUKReplacer::LRUKReplacer(size_t num_frames, size_t k)`. -/
def init (num_frames k : Nat) : LRUKReplacer :=
  { replacer_size_ := num_frames
    k_ := k
    current_timestamp_ := 0
    curr_size_ := 0
    recorded_cnt_ := fun _ => 0
    hist := fun _ => []
    evictable_ := fun _ => false
    new_frame_ := []
    cache_frame_ := [] }

/-- `LRUKReplacer::Size`. -/
def Size (r : LRUKReplacer) : Nat := r.curr_size_

/-- `LRUKReplacer::CmpTimestamp`. -/
def CmpTimestamp (f1 f2 : Int × Nat) : Bool := decide (f1.2 < f2.2)

/-- `std::upper_bound` over the sorted `cache_frame_` followed by `insert`:
the new entry goes right before the first entry with strictly larger
timestamp, i.e. after every entry with a smaller-or-equal timestamp. -/
def insertUpperBound (l : List (Int × Nat)) (v : Int × Nat) : List (Int × Nat) :=
  match l with
  | [] => [v]
  | x :: xs => if CmpTimestamp v x then v :: x :: xs else x :: insertUpperBound xs v

/-- `LRUKReplacer::Evict`.  `new_frame_` has its newest element at the head
(`push_front`), and the C++ loop walks it `rbegin()`→`rend()`, i.e. the
reversed list, oldest inserted first. -/
def Evict (r : LRUKReplacer) : Option (Int × LRUKReplacer) :=
  if r.Size = 0 then none
  else
    match r.new_frame_.reverse.find? (fun f => r.evictable_ f) with
    | some frame =>
        some (frame,
          { r with
            recorded_cnt_ := fupd r.recorded_cnt_ frame 0
            new_frame_ := r.new_frame_.filter (fun g => !(g == frame))
            curr_size_ := r.curr_size_ - 1
            hist := fupd r.hist frame [] })
    | none =>
        match r.cache_frame_.find? (fun p => r.evictable_ p.1) with
        | some p =>
            some (p.1,
              { r with
                recorded_cnt_ := fupd r.recorded_cnt_ p.1 0
                cache_frame_ := r.cache_frame_.eraseP (fun q => r.evictable_ q.1)
                curr_size_ := r.curr_size_ - 1
                hist := fupd r.hist p.1 [] })
        | none => none

/-- `LRUKReplacer::RecordAccess`.  Note the C++ validity check is
`frame_id > static_cast<frame_id_t>(replacer_size_)`: it rejects only ids
strictly greater than the capacity. -/
def RecordAccess (r : LRUKReplacer) (frame_id : Int) : Except RErr LRUKReplacer :=
  if frame_id > (r.replacer_size_ : Int) then .error .invalidFrame
  else
    let ts := r.current_timestamp_ + 1
    let count := r.recorded_cnt_ frame_id + 1
    let r1 : LRUKReplacer :=
      { r with
        current_timestamp_ := ts
        recorded_cnt_ := fupd r.recorded_cnt_ frame_id count
        hist := fupd r.hist frame_id (r.hist frame_id ++ [ts]) }
    let r2 : LRUKReplacer :=
      if count = 1 then
        { r1 with
          evictable_ := fupd r1.evictable_ frame_id true
          curr_size_ := r1.curr_size_ + 1
          new_frame_ := frame_id :: r1.new_frame_ }
      else r1
    if count = r.k_ then
      let r3 : LRUKReplacer :=
        { r2 with new_frame_ := r2.new_frame_.eraseP (fun g => g == frame_id) }
      let kth_time := (r3.hist frame_id).headD 0
      .ok { r3 with cache_frame_ := insertUpperBound r3.cache_frame_ (frame_id, kth_time) }
    else if r.k_ < count then
      let r3 : LRUKReplacer :=
        { r2 with
          hist := fupd r2.hist frame_id ((r2.hist frame_id).tail)
          cache_frame_ := r2.cache_frame_.eraseP (fun q => q.1 == frame_id) }
      let kth_time := (r3.hist frame_id).headD 0
      .ok { r3 with cache_frame_ := insertUpperBound r3.cache_frame_ (frame_id, kth_time) }
    else .ok r2

/-- `LRUKReplacer::SetEvictable`. -/
def SetEvictable (r : LRUKReplacer) (frame_id : Int) (set_evictable : Bool) :
    Except RErr LRUKReplacer :=
  if frame_id > (r.replacer_size_ : Int) then .error .invalidFrame
  else if r.evictable_ frame_id = set_evictable ∨ r.recorded_cnt_ frame_id = 0 then .ok r
  else
    .ok { r with
          evictable_ := fupd r.evictable_ frame_id set_evictable
          curr_size_ := if set_evictable then r.curr_size_ + 1 else r.curr_size_ - 1 }

/-- `LRUKReplacer::Remove`.  The C++ guard is
`frame_id > capacity || !evictable_[frame_id]`, a single throw; the two
short-circuited disjuncts are the spec's `InvalidFrame` / `NotEvictable`. -/
def Remove (r : LRUKReplacer) (frame_id : Int) : Except RErr LRUKReplacer :=
  if frame_id > (r.replacer_size_ : Int) then .error .invalidFrame
  else if r.evictable_ frame_id = false then .error .notEvictable
  else
    let count := r.recorded_cnt_ frame_id
    if count = 0 then .ok r
    else if count < r.k_ then
      .ok { r with
            new_frame_ := r.new_frame_.eraseP (fun g => g == frame_id)
            recorded_cnt_ := fupd r.recorded_cnt_ frame_id 0
            hist := fupd r.hist frame_id []
            curr_size_ := r.curr_size_ - 1 }
    else
      .ok { r with
            cache_frame_ := r.cache_frame_.eraseP (fun q => q.1 == frame_id)
            recorded_cnt_ := fupd r.recorded_cnt_ frame_id 0
            hist := fupd r.hist frame_id []
            curr_size_ := r.curr_size_ - 1 }

end LRUKReplacer

/-- One external call to the replacer. -/
inductive Op where
  | record : Int → Op
  | setEv : Int → Bool → Op
  | evict : Op
  | remove : Int → Op

/-- Run one call; a thrown exception (or a failed `Evict`) leaves the
caller's state unchanged, as every C++ throw precedes any mutation. -/
def applyOp (r : LRUKReplacer) : Op → LRUKReplacer
  | .record f =>
      match r.RecordAccess f with
      | .ok r' => r'
      | .error _ => r
  | .setEv f b =>
      match r.SetEvictable f b with
      | .ok r' => r'
      | .error _ => r
  | .evict =>
      match r.Evict with
      | some (_, r') => r'
      | none => r
  | .remove f =>
      match r.Remove f with
      | .ok r' => r'
      | .error _ => r

/-- Run a sequence of calls. -/
def runOps (r : LRUKReplacer) (ops : List Op) : LRUKReplacer := ops.foldl applyOp r

/-- All frame ids currently tracked: Early Set members followed by Stable
Set members. -/
def tracked (r : LRUKReplacer) : List Int :=
  r.new_frame_ ++ r.cache_frame_.map Prod.fst

open LRUKReplacer

lemma fupd_same {α : Type} (m : Int → α) (x : Int) (v : α) : fupd m x v x = v := by
  simp [fupd]

lemma fupd_ne {α : Type} (m : Int → α) {x y : Int} (v : α) (h : y ≠ x) : fupd m x v y = m y := by
  simp [fupd, h]

lemma mem_insertUpperBound {l : List (Int × Nat)} {v a : Int × Nat} :
    a ∈ insertUpperBound l v ↔ a = v ∨ a ∈ l := by
  induction l with
  | nil => simp [insertUpperBound]
  | cons x xs ih =>
      by_cases h : CmpTimestamp v x
      · simp only [insertUpperBound, if_pos h, List.mem_cons]
      · simp only [insertUpperBound, if_neg h, List.mem_cons, ih]
        tauto

lemma perm_insertUpperBound (l : List (Int × Nat)) (v : Int × Nat) :
    (insertUpperBound l v).Perm (v :: l) := by
  induction l with
  | nil => simp [insertUpperBound]
  | cons x xs ih =>
      by_cases h : CmpTimestamp v x
      · simp [insertUpperBound, h]
      · simp only [insertUpperBound, if_neg h]
        exact (ih.cons x).trans (List.Perm.swap v x xs)

lemma pairwise_insertUpperBound {l : List (Int × Nat)} {v : Int × Nat}
    (h : l.Pairwise (fun a b => a.2 ≤ b.2)) :
    (insertUpperBound l v).Pairwise (fun a b => a.2 ≤ b.2) := by
  induction l with
  | nil => simp [insertUpperBound]
  | cons x xs ih =>
      rcases List.pairwise_cons.mp h with ⟨hx, hxs⟩
      by_cases hc : CmpTimestamp v x
      · have hvx : v.2 ≤ x.2 := le_of_lt (by simpa [CmpTimestamp] using hc)
        simp only [insertUpperBound, if_pos hc]
        refine List.pairwise_cons.mpr ⟨?_, h⟩
        intro b hb
        rcases List.mem_cons.mp hb with rfl | hb
        · exact hvx
        · exact hvx.trans (hx b hb)
      · have hxv : x.2 ≤ v.2 := le_of_not_lt (by simpa [CmpTimestamp] using hc)
        simp only [insertUpperBound, if_neg hc]
        refine List.pairwise_cons.mpr ⟨?_, ih hxs⟩
        intro b hb
        rcases mem_insertUpperBound.mp hb with rfl | hb
        · exact hxv
        · exact hx b hb

lemma insertUpperBound_sorted_eq {l : List (Int × Nat)} (v : Int × Nat)
    (h : l.Pairwise (fun a b => a.2 ≤ b.2)) :
    insertUpperBound l v =
      l.filter (fun x => decide (x.2 ≤ v.2)) ++ v :: l.filter (fun x => decide (v.2 < x.2)) := by
  induction l with
  | nil => simp [insertUpperBound]
  | cons x xs ih =>
      rcases List.pairwise_cons.mp h with ⟨hx, hxs⟩
      by_cases hc : (v.2 : Nat) < x.2
      · have h1 : (x :: xs).filter (fun y => decide (y.2 ≤ v.2)) = [] := by
          rw [List.filter_eq_nil_iff]
          intro b hb
          rcases List.mem_cons.mp hb with rfl | hb
          · simp only [decide_eq_true_eq]; omega
          · have := hx b hb; simp only [decide_eq_true_eq]; omega
        have h2 : (x :: xs).filter (fun y => decide (v.2 < y.2)) = x :: xs := by
          rw [List.filter_eq_self]
          intro b hb
          rcases List.mem_cons.mp hb with rfl | hb
          · simp [hc]
          · have := hx b hb; simp only [decide_eq_true_eq]; omega
        rw [h1, h2]
        simp [insertUpperBound, CmpTimestamp, hc]
      · have hxv : x.2 ≤ v.2 := le_of_not_lt hc
        have hcc : ¬ CmpTimestamp v x := by simpa [CmpTimestamp] using hc
        simp only [insertUpperBound, if_neg hcc, ih hxs, List.filter_cons]
        simp [hxv, hc]

lemma find?_eq_some_split {α : Type} {p : α → Bool} {a : α} :
    ∀ {l : List α}, l.find? p = some a →
      p a = true ∧ ∃ l₁ l₂, l = l₁ ++ a :: l₂ ∧ ∀ b ∈ l₁, p b = false := by
  intro l
  induction l with
  | nil => intro h; simp [List.find?] at h
  | cons x xs ih =>
      intro h
      cases hx : p x with
      | true =>
          rw [List.find?_cons, hx] at h
          cases h
          exact ⟨hx, [], xs, rfl, by simp⟩
      | false =>
          rw [List.find?_cons, hx] at h
          rcases ih h with ⟨hpa, l₁, l₂, rfl, hl₁⟩
          refine ⟨hpa, x :: l₁, l₂, rfl, ?_⟩
          intro b hb
          rcases List.mem_cons.mp hb with rfl | hb
          · exact hx
          · exact hl₁ b hb

lemma eraseP_append_left_false {α : Type} {p : α → Bool} {l₂ : List α} {a : α}
    (ha : p a = true) :
    ∀ {l₁ : List α}, (∀ b ∈ l₁, p b = false) →
      (l₁ ++ a :: l₂).eraseP p = l₁ ++ l₂ := by
  intro l₁
  induction l₁ with
  | nil => intro _; simp [List.eraseP_cons, ha]
  | cons x xs ih =>
      intro h₁
      have hx : p x = false := h₁ x (by simp)
      simp only [List.cons_append, List.eraseP_cons, hx, cond_false]
      rw [ih (fun b hb => h₁ b (by simp [hb]))]

lemma perm_cons_filter_ne {f : Int} :
    ∀ {l : List Int}, l.Nodup → f ∈ l → l.Perm (f :: l.filter (fun g => !(g == f))) := by
  intro l
  induction l with
  | nil => intro _ hf; simp at hf
  | cons a l ih =>
      intro hnd hf
      rcases List.nodup_cons.mp hnd with ⟨ha, hnd'⟩
      rcases List.mem_cons.mp hf with rfl | hf'
      · have hfl : l.filter (fun g => !(g == f)) = l := by
          rw [List.filter_eq_self]
          intro b hb
          have hba : b ≠ f := fun h => ha (h ▸ hb)
          simp [hba]
        have hhead : (f :: l).filter (fun g => !(g == f)) = l := by
          simp [List.filter_cons, hfl]
        rw [hhead]
      · have haf : (a == f) = false := by
          simp only [beq_eq_false_iff_ne, ne_eq]
          rintro rfl; exact ha hf'
        have hfl : (a :: l).filter (fun g => !(g == f)) =
            a :: l.filter (fun g => !(g == f)) := by
          simp [List.filter_cons, haf]
        rw [hfl]
        exact ((ih hnd' hf').cons a).trans (List.Perm.swap f a _)

lemma length_filter_fupd_true {q : Int → Bool} {f : Int} (hq : q f = false) :
    ∀ {l : List Int}, l.Nodup → f ∈ l →
      (l.filter (fun g => fupd q f true g)).length = (l.filter (fun g => q g)).length + 1 := by
  intro l
  induction l with
  | nil => intro _ hf; simp at hf
  | cons a l ih =>
      intro hnd hf
      rcases List.nodup_cons.mp hnd with ⟨ha, hnd'⟩
      rcases List.mem_cons.mp hf with rfl | hf'
      · have hcong : l.filter (fun g => fupd q f true g) = l.filter (fun g => q g) := by
          apply List.filter_congr
          intro b hb
          exact fupd_ne q true (fun h => ha (h ▸ hb))
        simp [List.filter_cons, fupd_same, hq, hcong]
      · have haf : a ≠ f := by rintro rfl; exact ha hf'
        have hup : fupd q f true a = q a := fupd_ne q true haf
        cases hqa : q a with
        | true => simp [List.filter_cons, hup, hqa, ih hnd' hf']
        | false => simp [List.filter_cons, hup, hqa, ih hnd' hf']

lemma length_filter_fupd_false {q : Int → Bool} {f : Int} (hq : q f = true) :
    ∀ {l : List Int}, l.Nodup → f ∈ l →
      (l.filter (fun g => fupd q f false g)).length + 1 = (l.filter (fun g => q g)).length := by
  intro l
  induction l with
  | nil => intro _ hf; simp at hf
  | cons a l ih =>
      intro hnd hf
      rcases List.nodup_cons.mp hnd with ⟨ha, hnd'⟩
      rcases List.mem_cons.mp hf with rfl | hf'
      · have hcong : l.filter (fun g => fupd q f false g) = l.filter (fun g => q g) := by
          apply List.filter_congr
          intro b hb
          exact fupd_ne q false (fun h => ha (h ▸ hb))
        simp [List.filter_cons, fupd_same, hq, hcong]
      · have haf : a ≠ f := by rintro rfl; exact ha hf'
        have hup : fupd q f false a = q a := fupd_ne q false haf
        cases hqa : q a with
        | true =>
            have hih := ih hnd' hf'
            simp only [List.filter_cons, hup, hqa, if_true, List.length_cons]
            omega
        | false => simp [List.filter_cons, hup, hqa, ih hnd' hf']

example :
    ((runOps (LRUKReplacer.init 7 2)
      [Op.record 1, Op.record 2, Op.record 3, Op.record 1, Op.record 1]).Evict).map Prod.fst =
      some 2 := by
  decide

lemma fupd_fupd {α : Type} (m : Int → α) (x : Int) (a b : α) :
    fupd (fupd m x a) x b = fupd m x b := by
  funext y
  by_cases h : y = x <;> simp [fupd, h]

lemma recordAccess_err (r : LRUKReplacer) (f : Int) (hle : f > (r.replacer_size_ : Int)) :
    r.RecordAccess f = .error .invalidFrame := by
  simp [RecordAccess, hle]

lemma recordAccess_fresh (r : LRUKReplacer) (f : Int)
    (hle : ¬ f > (r.replacer_size_ : Int)) (h0 : r.recorded_cnt_ f = 0)
    (hk1 : 1 ≤ r.k_) (hk : r.k_ ≠ 1) :
    r.RecordAccess f = .ok
      { r with
        current_timestamp_ := r.current_timestamp_ + 1
        recorded_cnt_ := fupd r.recorded_cnt_ f 1
        hist := fupd r.hist f (r.hist f ++ [r.current_timestamp_ + 1])
        evictable_ := fupd r.evictable_ f true
        curr_size_ := r.curr_size_ + 1
        new_frame_ := f :: r.new_frame_ } := by
  have h2 : ¬ ((1 : Nat) = r.k_) := by omega
  have h3 : ¬ (r.k_ < (1 : Nat)) := by omega
  simp [RecordAccess, hle, h0, h2, h3]

lemma recordAccess_fresh_k1 (r : LRUKReplacer) (f : Int)
    (hle : ¬ f > (r.replacer_size_ : Int)) (h0 : r.recorded_cnt_ f = 0)
    (hkeq : r.k_ = 1) :
    r.RecordAccess f = .ok
      { r with
        current_timestamp_ := r.current_timestamp_ + 1
        recorded_cnt_ := fupd r.recorded_cnt_ f 1
        hist := fupd r.hist f (r.hist f ++ [r.current_timestamp_ + 1])
        evictable_ := fupd r.evictable_ f true
        curr_size_ := r.curr_size_ + 1
        new_frame_ := r.new_frame_
        cache_frame_ :=
          insertUpperBound r.cache_frame_
            (f, (r.hist f ++ [r.current_timestamp_ + 1]).headD 0) } := by
  simp [RecordAccess, hle, h0, hkeq, List.eraseP_cons, fupd_same]

lemma recordAccess_mid (r : LRUKReplacer) (f : Int)
    (hle : ¬ f > (r.replacer_size_ : Int)) (hpos : 0 < r.recorded_cnt_ f)
    (hlt : r.recorded_cnt_ f + 1 < r.k_) :
    r.RecordAccess f = .ok
      { r with
        current_timestamp_ := r.current_timestamp_ + 1
        recorded_cnt_ := fupd r.recorded_cnt_ f (r.recorded_cnt_ f + 1)
        hist := fupd r.hist f (r.hist f ++ [r.current_timestamp_ + 1]) } := by
  have h1 : ¬ (r.recorded_cnt_ f + 1 = 1) := by omega
  have h2 : ¬ (r.recorded_cnt_ f + 1 = r.k_) := by omega
  have h3 : ¬ (r.k_ < r.recorded_cnt_ f + 1) := by omega
  simp [RecordAccess, hle, h1, h2, h3]

lemma recordAccess_promote (r : LRUKReplacer) (f : Int)
    (hle : ¬ f > (r.replacer_size_ : Int)) (hpos : 0 < r.recorded_cnt_ f)
    (heq : r.recorded_cnt_ f + 1 = r.k_) :
    r.RecordAccess f = .ok
      { r with
        current_timestamp_ := r.current_timestamp_ + 1
        recorded_cnt_ := fupd r.recorded_cnt_ f (r.recorded_cnt_ f + 1)
        hist := fupd r.hist f (r.hist f ++ [r.current_timestamp_ + 1])
        new_frame_ := r.new_frame_.eraseP (fun g => g == f)
        cache_frame_ :=
          insertUpperBound r.cache_frame_
            (f, (r.hist f ++ [r.current_timestamp_ + 1]).headD 0) } := by
  have h1 : ¬ (r.recorded_cnt_ f + 1 = 1) := by omega
  have h4 : ¬ (r.k_ = 1) := by omega
  simp [RecordAccess, hle, h1, h4, heq, fupd_same]

lemma recordAccess_rerank (r : LRUKReplacer) (f : Int)
    (hle : ¬ f > (r.replacer_size_ : Int)) (hpos : 0 < r.recorded_cnt_ f)
    (hgt : r.k_ < r.recorded_cnt_ f + 1) :
    r.RecordAccess f = .ok
      { r with
        current_timestamp_ := r.current_timestamp_ + 1
        recorded_cnt_ := fupd r.recorded_cnt_ f (r.recorded_cnt_ f + 1)
        hist := fupd r.hist f ((r.hist f ++ [r.current_timestamp_ + 1]).tail)
        cache_frame_ :=
          insertUpperBound (r.cache_frame_.eraseP (fun q => q.1 == f))
            (f, ((r.hist f ++ [r.current_timestamp_ + 1]).tail).headD 0) } := by
  have h1 : ¬ (r.recorded_cnt_ f + 1 = 1) := by omega
  have h2 : ¬ (r.recorded_cnt_ f + 1 = r.k_) := by omega
  simp [RecordAccess, hle, h1, h2, hgt, fupd_same, fupd_fupd]

lemma setEvictable_err (r : LRUKReplacer) (f : Int) (b : Bool)
    (hle : f > (r.replacer_size_ : Int)) :
    r.SetEvictable f b = .error .invalidFrame := by
  simp [SetEvictable, hle]

lemma setEvictable_noop (r : LRUKReplacer) (f : Int) (b : Bool)
    (hle : ¬ f > (r.replacer_size_ : Int))
    (h : r.evictable_ f = b ∨ r.recorded_cnt_ f = 0) :
    r.SetEvictable f b = .ok r := by
  simp [SetEvictable, hle, h]

lemma setEvictable_toggle (r : LRUKReplacer) (f : Int) (b : Bool)
    (hle : ¬ f > (r.replacer_size_ : Int))
    (hne : ¬ r.evictable_ f = b) (hcnt : ¬ r.recorded_cnt_ f = 0) :
    r.SetEvictable f b = .ok
      { r with
        evictable_ := fupd r.evictable_ f b
        curr_size_ := if b then r.curr_size_ + 1 else r.curr_size_ - 1 } := by
  simp [SetEvictable, hle, hne, hcnt]

lemma remove_err (r : LRUKReplacer) (f : Int) (hle : f > (r.replacer_size_ : Int)) :
    r.Remove f = .error .invalidFrame := by
  simp [Remove, hle]

lemma remove_not_evictable (r : LRUKReplacer) (f : Int)
    (hle : ¬ f > (r.replacer_size_ : Int)) (hev : r.evictable_ f = false) :
    r.Remove f = .error .notEvictable := by
  simp [Remove, hle, hev]

lemma remove_noop (r : LRUKReplacer) (f : Int)
    (hle : ¬ f > (r.replacer_size_ : Int)) (hev : r.evictable_ f = true)
    (hcnt : r.recorded_cnt_ f = 0) :
    r.Remove f = .ok r := by
  simp [Remove, hle, hev, hcnt]

lemma remove_early (r : LRUKReplacer) (f : Int)
    (hle : ¬ f > (r.replacer_size_ : Int)) (hev : r.evictable_ f = true)
    (hcnt : ¬ r.recorded_cnt_ f = 0) (hlt : r.recorded_cnt_ f < r.k_) :
    r.Remove f = .ok
      { r with
        new_frame_ := r.new_frame_.eraseP (fun g => g == f)
        recorded_cnt_ := fupd r.recorded_cnt_ f 0
        hist := fupd r.hist f []
        curr_size_ := r.curr_size_ - 1 } := by
  simp [Remove, hle, hev, hcnt, hlt]

lemma remove_cache (r : LRUKReplacer) (f : Int)
    (hle : ¬ f > (r.replacer_size_ : Int)) (hev : r.evictable_ f = true)
    (hcnt : ¬ r.recorded_cnt_ f = 0) (hge : ¬ r.recorded_cnt_ f < r.k_) :
    r.Remove f = .ok
      { r with
        cache_frame_ := r.cache_frame_.eraseP (fun q => q.1 == f)
        recorded_cnt_ := fupd r.recorded_cnt_ f 0
        hist := fupd r.hist f []
        curr_size_ := r.curr_size_ - 1 } := by
  simp [Remove, hle, hev, hcnt, hge]

lemma evict_size_zero (r : LRUKReplacer) (h : r.Size = 0) : r.Evict = none := by
  simp [Evict, h]

lemma evict_early (r : LRUKReplacer) (f : Int)
    (hsz : ¬ r.Size = 0)
    (hf : r.new_frame_.reverse.find? (fun g => r.evictable_ g) = some f) :
    r.Evict = some (f,
      { r with
        recorded_cnt_ := fupd r.recorded_cnt_ f 0
        new_frame_ := r.new_frame_.filter (fun g => !(g == f))
        curr_size_ := r.curr_size_ - 1
        hist := fupd r.hist f [] }) := by
  simp [Evict, hsz, hf]

lemma evict_cache (r : LRUKReplacer) (p : Int × Nat)
    (hsz : ¬ r.Size = 0)
    (hnone : r.new_frame_.reverse.find? (fun g => r.evictable_ g) = none)
    (hp : r.cache_frame_.find? (fun q => r.evictable_ q.1) = some p) :
    r.Evict = some (p.1,
      { r with
        recorded_cnt_ := fupd r.recorded_cnt_ p.1 0
        cache_frame_ := r.cache_frame_.eraseP (fun q => r.evictable_ q.1)
        curr_size_ := r.curr_size_ - 1
        hist := fupd r.hist p.1 [] }) := by
  simp [Evict, hsz, hnone, hp]

lemma evict_not_found (r : LRUKReplacer)
    (hnone : r.new_frame_.reverse.find? (fun g => r.evictable_ g) = none)
    (hnone' : r.cache_frame_.find? (fun q => r.evictable_ q.1) = none) :
    r.Evict = none := by
  by_cases hsz : r.Size = 0
  · simp [Evict, hsz]
  · simp [Evict, hsz, hnone, hnone']

/-- The state invariant maintained by every operation: counts classify
frames into the two sets, the tracked list has no duplicates, `curr_size_`
counts the evictable tracked frames, histories are capped at `k_`, and the
Stable list is sorted by (up-to-date) Kth-back timestamps. -/
structure Inv (r : LRUKReplacer) : Prop where
  k_pos : 1 ≤ r.k_
  mem_iff : ∀ f : Int, f ∈ tracked r ↔ 0 < r.recorded_cnt_ f
  new_cnt : ∀ f ∈ r.new_frame_, r.recorded_cnt_ f < r.k_
  cache_cnt : ∀ p ∈ r.cache_frame_, r.k_ ≤ r.recorded_cnt_ p.1
  nodup : (tracked r).Nodup
  size_eq : r.curr_size_ = ((tracked r).filter (fun f => r.evictable_ f)).length
  hist_len : ∀ f : Int, (r.hist f).length = min (r.recorded_cnt_ f) r.k_
  sorted : r.cache_frame_.Pairwise (fun a b => a.2 ≤ b.2)
  cache_ts : ∀ p ∈ r.cache_frame_, p.2 = (r.hist p.1).headD 0
  range : ∀ f ∈ tracked r, f ≤ (r.replacer_size_ : Int)

lemma inv_init (cap k : Nat) (hk : 1 ≤ k) : Inv (init cap k) := by
  constructor <;> simp [init, tracked, hk]

lemma Inv.hist_empty {r : LRUKReplacer} (h : Inv r) {f : Int}
    (h0 : r.recorded_cnt_ f = 0) : r.hist f = [] := by
  have hl := h.hist_len f
  rw [h0] at hl
  simp only [Nat.min_eq_left (Nat.zero_le _), Nat.zero_min] at hl
  exact List.length_eq_zero.mp hl

lemma Inv.new_nodup {r : LRUKReplacer} (h : Inv r) : r.new_frame_.Nodup :=
  (List.nodup_append.mp h.nodup).1

lemma Inv.cachefst_nodup {r : LRUKReplacer} (h : Inv r) :
    (r.cache_frame_.map Prod.fst).Nodup :=
  (List.nodup_append.mp h.nodup).2.1

lemma Inv.disjoint {r : LRUKReplacer} (h : Inv r) {f : Int} (hf : f ∈ r.new_frame_) :
    f ∉ r.cache_frame_.map Prod.fst :=
  (List.nodup_append.mp h.nodup).2.2 hf

lemma Inv.new_pos {r : LRUKReplacer} (h : Inv r) {f : Int} (hf : f ∈ r.new_frame_) :
    0 < r.recorded_cnt_ f :=
  (h.mem_iff f).mp (List.mem_append.mpr (Or.inl hf))

lemma Inv.mem_new_of {r : LRUKReplacer} (h : Inv r) {f : Int}
    (hpos : 0 < r.recorded_cnt_ f) (hlt : r.recorded_cnt_ f < r.k_) :
    f ∈ r.new_frame_ := by
  rcases List.mem_append.mp ((h.mem_iff f).mpr hpos) with hm | hm
  · exact hm
  · rcases List.mem_map.mp hm with ⟨p, hp, rfl⟩
    exact absurd (h.cache_cnt p hp) (by omega)

lemma Inv.mem_cachefst_of {r : LRUKReplacer} (h : Inv r) {f : Int}
    (hge : r.k_ ≤ r.recorded_cnt_ f) :
    f ∈ r.cache_frame_.map Prod.fst := by
  have hpos : 0 < r.recorded_cnt_ f := by have := h.k_pos; omega
  rcases List.mem_append.mp ((h.mem_iff f).mpr hpos) with hm | hm
  · exact absurd (h.new_cnt f hm) (by omega)
  · exact hm

/-- Common shape of the four "retire a frame" success branches
(`Evict` from either set, `Remove` from either set): count and history of
the retired frame are cleared and `curr_size_` is decremented, while the
remaining lists carry only other frames. -/
lemma inv_retire (r : LRUKReplacer) (f : Int) (h : Inv r)
    (nf' : List Int) (cf' : List (Int × Nat))
    (hev : r.evictable_ f = true)
    (hperm : (tracked r).Perm (f :: (nf' ++ cf'.map Prod.fst)))
    (hnf : ∀ g ∈ nf', g ∈ r.new_frame_ ∧ g ≠ f)
    (hcf : ∀ p ∈ cf', p ∈ r.cache_frame_ ∧ p.1 ≠ f)
    (hsorted : cf'.Pairwise (fun a b => a.2 ≤ b.2)) :
    Inv { r with
          recorded_cnt_ := fupd r.recorded_cnt_ f 0
          hist := fupd r.hist f []
          curr_size_ := r.curr_size_ - 1
          new_frame_ := nf'
          cache_frame_ := cf' } := by
  have htr' : tracked { r with
      recorded_cnt_ := fupd r.recorded_cnt_ f 0
      hist := fupd r.hist f []
      curr_size_ := r.curr_size_ - 1
      new_frame_ := nf'
      cache_frame_ := cf' } = nf' ++ cf'.map Prod.fst := rfl
  have hme : ∀ g : Int, g ∈ tracked r ↔ (g = f ∨ g ∈ nf' ++ cf'.map Prod.fst) := by
    intro g
    rw [hperm.mem_iff, List.mem_cons]
  have hfni : f ∉ nf' ++ cf'.map Prod.fst := by
    intro hmem
    rcases List.mem_append.mp hmem with hm | hm
    · exact (hnf f hm).2 rfl
    · rcases List.mem_map.mp hm with ⟨p, hp, hp1⟩
      exact (hcf p hp).2 hp1
  constructor <;> dsimp only
  · exact h.k_pos
  · intro g
    rw [htr']
    by_cases hg : g = f
    · subst hg
      simp [fupd_same, hfni]
    · rw [fupd_ne _ _ hg]
      constructor
      · intro hm
        exact (h.mem_iff g).mp ((hme g).mpr (Or.inr hm))
      · intro hp
        rcases (hme g).mp ((h.mem_iff g).mpr hp) with rfl | hm
        · exact absurd rfl hg
        · exact hm
  · intro g hg
    rcases hnf g hg with ⟨hmem, hne⟩
    rw [fupd_ne _ _ hne]
    exact h.new_cnt g hmem
  · intro p hp
    rcases hcf p hp with ⟨hmem, hne⟩
    rw [fupd_ne _ _ hne]
    exact h.cache_cnt p hmem
  · rw [htr']
    exact (List.nodup_cons.mp (hperm.nodup_iff.mp h.nodup)).2
  · rw [htr']
    have hfil := (hperm.filter (fun g => r.evictable_ g)).length_eq
    rw [List.filter_cons_of_pos hev] at hfil
    have := h.size_eq
    simp only [List.length_cons] at hfil
    show r.curr_size_ - 1 = (List.filter r.evictable_ (nf' ++ cf'.map Prod.fst)).length
    omega
  · intro g
    by_cases hg : g = f
    · subst hg
      simp [fupd_same]
    · rw [fupd_ne _ _ hg, fupd_ne _ _ hg]
      exact h.hist_len g
  · exact hsorted
  · intro p hp
    rcases hcf p hp with ⟨hmem, hne⟩
    rw [fupd_ne _ _ hne]
    exact h.cache_ts p hmem
  · intro g hg
    rw [htr'] at hg
    exact h.range g ((hme g).mpr (Or.inr hg))

lemma perm_tracked_cache_split (r : LRUKReplacer) {c₁ c₂ : List (Int × Nat)} {p : Int × Nat}
    (hceq : r.cache_frame_ = c₁ ++ p :: c₂) :
    (tracked r).Perm (p.1 :: (r.new_frame_ ++ (c₁ ++ c₂).map Prod.fst)) := by
  rw [tracked, hceq]
  simp only [List.map_append, List.map_cons, ← List.append_assoc]
  exact List.perm_middle

lemma fst_ne_of_split {c₁ c₂ : List (Int × Nat)} {p : Int × Nat}
    (hnd : ((c₁ ++ p :: c₂).map Prod.fst).Nodup) :
    ∀ q ∈ c₁ ++ c₂, q.1 ≠ p.1 := by
  intro q hq h1
  rw [List.map_append, List.map_cons] at hnd
  have hsplit := List.nodup_append.mp hnd
  rcases List.mem_append.mp hq with hm | hm
  · exact hsplit.2.2 (h1 ▸ List.mem_map_of_mem Prod.fst hm) (List.mem_cons_self _ _)
  · exact (List.nodup_cons.mp hsplit.2.1).1 (h1 ▸ List.mem_map_of_mem Prod.fst hm)

lemma ne_of_split_new {n₁ n₂ : List Int} {f : Int}
    (hnd : (n₁ ++ f :: n₂).Nodup) : ∀ g ∈ n₁ ++ n₂, g ≠ f := by
  intro g hg hgf
  subst hgf
  have hsplit := List.nodup_append.mp hnd
  rcases List.mem_append.mp hg with hm | hm
  · exact hsplit.2.2 hm (List.mem_cons_self _ _)
  · exact (List.nodup_cons.mp hsplit.2.1).1 hm

lemma inv_setEvictable (r : LRUKReplacer) (f : Int) (b : Bool) (h : Inv r) :
    Inv (applyOp r (Op.setEv f b)) := by
  by_cases hle : f > (r.replacer_size_ : Int)
  · simpa [applyOp, setEvictable_err r f b hle] using h
  · by_cases hno : r.evictable_ f = b ∨ r.recorded_cnt_ f = 0
    · simpa [applyOp, setEvictable_noop r f b hle hno] using h
    · push_neg at hno
      obtain ⟨hne, hcnt⟩ := hno
      have happ : applyOp r (Op.setEv f b) =
          { r with
            evictable_ := fupd r.evictable_ f b
            curr_size_ := if b then r.curr_size_ + 1 else r.curr_size_ - 1 } := by
        simp [applyOp, setEvictable_toggle r f b hle hne hcnt]
      rw [happ]
      have hmem : f ∈ tracked r := (h.mem_iff f).mpr (Nat.pos_of_ne_zero hcnt)
      constructor <;> dsimp only
      · exact h.k_pos
      · exact h.mem_iff
      · exact h.new_cnt
      · exact h.cache_cnt
      · exact h.nodup
      · cases b with
        | true =>
            have hf : r.evictable_ f = false := by
              cases hb : r.evictable_ f
              · rfl
              · exact absurd hb hne
            have := length_filter_fupd_true (q := r.evictable_) hf h.nodup hmem
            have hsz := h.size_eq
            simp only [if_true]
            show r.curr_size_ + 1 =
              (List.filter (fun g => fupd r.evictable_ f true g) (tracked r)).length
            omega
        | false =>
            have hf : r.evictable_ f = true := by
              cases hb : r.evictable_ f
              · exact absurd hb hne
              · rfl
            have := length_filter_fupd_false (q := r.evictable_) hf h.nodup hmem
            have hsz := h.size_eq
            show r.curr_size_ - 1 =
              (List.filter (fun g => fupd r.evictable_ f false g) (tracked r)).length
            omega
      · exact h.hist_len
      · exact h.sorted
      · exact h.cache_ts
      · exact h.range

lemma inv_evict (r : LRUKReplacer) (h : Inv r) : Inv (applyOp r Op.evict) := by
  by_cases hsz : r.Size = 0
  · simpa [applyOp, evict_size_zero r hsz] using h
  · cases hfind : r.new_frame_.reverse.find? (fun g => r.evictable_ g) with
    | some f =>
        have happ : applyOp r Op.evict =
            { r with
              recorded_cnt_ := fupd r.recorded_cnt_ f 0
              new_frame_ := r.new_frame_.filter (fun g => !(g == f))
              curr_size_ := r.curr_size_ - 1
              hist := fupd r.hist f [] } := by
          simp [applyOp, evict_early r f hsz hfind]
        rw [happ]
        have hev : r.evictable_ f = true := by simpa using List.find?_some hfind
        have hfmem : f ∈ r.new_frame_ := List.mem_reverse.mp (List.mem_of_find?_eq_some hfind)
        have hperm : (tracked r).Perm
            (f :: (r.new_frame_.filter (fun g => !(g == f)) ++ r.cache_frame_.map Prod.fst)) := by
          have h1 := perm_cons_filter_ne h.new_nodup hfmem
          have h2 := h1.append_right (r.cache_frame_.map Prod.fst)
          simpa [tracked] using h2
        exact inv_retire r f h _ _ hev hperm
          (fun g hg =>
            ⟨(List.mem_filter.mp hg).1, by
              have := (List.mem_filter.mp hg).2
              simpa using this⟩)
          (fun p hp =>
            ⟨hp, fun hpf => h.disjoint hfmem (List.mem_map.mpr ⟨p, hp, hpf⟩)⟩)
          h.sorted
    | none =>
        cases hfind2 : r.cache_frame_.find? (fun q => r.evictable_ q.1) with
        | some p =>
            obtain ⟨hpev, c₁, c₂, hceq, hc₁⟩ := find?_eq_some_split hfind2
            have hep : r.cache_frame_.eraseP (fun q => r.evictable_ q.1) = c₁ ++ c₂ := by
              rw [hceq]
              exact @eraseP_append_left_false (Int × Nat) (fun q => r.evictable_ q.1) c₂ p
                hpev c₁ hc₁
            have happ : applyOp r Op.evict =
                { r with
                  recorded_cnt_ := fupd r.recorded_cnt_ p.1 0
                  cache_frame_ := c₁ ++ c₂
                  curr_size_ := r.curr_size_ - 1
                  hist := fupd r.hist p.1 [] } := by
              simp [applyOp, evict_cache r p hsz hfind hfind2, hep]
            rw [happ]
            have hev : r.evictable_ p.1 = true := by simpa using hpev
            have hpmem : p ∈ r.cache_frame_ := by
              rw [hceq]; exact List.mem_append.mpr (Or.inr (List.mem_cons_self _ _))
            have hfstnd : ((c₁ ++ p :: c₂).map Prod.fst).Nodup := by
              rw [← hceq]; exact h.cachefst_nodup
            exact inv_retire r p.1 h _ _ hev (perm_tracked_cache_split r hceq)
              (fun g hg =>
                ⟨hg, fun hgf =>
                  h.disjoint hg (hgf ▸ List.mem_map_of_mem Prod.fst hpmem)⟩)
              (fun q hq =>
                ⟨by rw [hceq]
                    rcases List.mem_append.mp hq with hm | hm
                    · exact List.mem_append.mpr (Or.inl hm)
                    · exact List.mem_append.mpr (Or.inr (List.mem_cons_of_mem _ hm)),
                  fst_ne_of_split hfstnd q hq⟩)
              (List.Pairwise.sublist (hep ▸ List.eraseP_sublist _) h.sorted)
        | none =>
            simpa [applyOp, evict_not_found r hfind hfind2] using h

lemma inv_remove (r : LRUKReplacer) (f : Int) (h : Inv r) :
    Inv (applyOp r (Op.remove f)) := by
  by_cases hle : f > (r.replacer_size_ : Int)
  · simpa [applyOp, remove_err r f hle] using h
  · by_cases hev : r.evictable_ f = false
    · simpa [applyOp, remove_not_evictable r f hle hev] using h
    · have hevT : r.evictable_ f = true := by
        cases hb : r.evictable_ f
        · exact absurd hb hev
        · rfl
      by_cases hcnt : r.recorded_cnt_ f = 0
      · simpa [applyOp, remove_noop r f hle hevT hcnt] using h
      · by_cases hlt : r.recorded_cnt_ f < r.k_
        · -- frame is in the Early Set
          have hfmem : f ∈ r.new_frame_ := h.mem_new_of (Nat.pos_of_ne_zero hcnt) hlt
          obtain ⟨a, n₁, n₂, hn₁, ha, hne, her⟩ :=
            List.exists_of_eraseP (p := fun g => g == f) hfmem (by simp)
          have haf : a = f := by simpa using ha
          subst haf
          have hnodup : (n₁ ++ a :: n₂).Nodup := hne ▸ h.new_nodup
          have happ : applyOp r (Op.remove a) =
              { r with
                new_frame_ := n₁ ++ n₂
                recorded_cnt_ := fupd r.recorded_cnt_ a 0
                hist := fupd r.hist a []
                curr_size_ := r.curr_size_ - 1 } := by
            simp [applyOp, remove_early r a hle hevT hcnt hlt, her]
          rw [happ]
          have hperm : (tracked r).Perm (a :: ((n₁ ++ n₂) ++ r.cache_frame_.map Prod.fst)) := by
            rw [tracked, hne]
            simp only [List.append_assoc, List.cons_append]
            exact List.perm_middle
          exact inv_retire r a h _ _ hevT hperm
            (fun g hg =>
              ⟨by
                rw [hne]
                rcases List.mem_append.mp hg with hm | hm
                · exact List.mem_append.mpr (Or.inl hm)
                · exact List.mem_append.mpr (Or.inr (List.mem_cons_of_mem _ hm)),
                ne_of_split_new hnodup g hg⟩)
            (fun q hq =>
              ⟨hq, fun h1 => h.disjoint hfmem (h1 ▸ List.mem_map_of_mem Prod.fst hq)⟩)
            h.sorted
        · -- frame is in the Stable Set
          have hge : r.k_ ≤ r.recorded_cnt_ f := not_lt.mp hlt
          have hmemfst : f ∈ r.cache_frame_.map Prod.fst := h.mem_cachefst_of hge
          obtain ⟨p₀, hp₀, hp₀1⟩ := List.mem_map.mp hmemfst
          obtain ⟨a, c₁, c₂, hc₁, ha, hceq, her⟩ :=
            List.exists_of_eraseP (p := fun q => q.1 == f) hp₀ (by simp [hp₀1])
          have haf : a.1 = f := by simpa using ha
          have happ : applyOp r (Op.remove f) =
              { r with
                cache_frame_ := c₁ ++ c₂
                recorded_cnt_ := fupd r.recorded_cnt_ f 0
                hist := fupd r.hist f []
                curr_size_ := r.curr_size_ - 1 } := by
            simp [applyOp, remove_cache r f hle hevT hcnt hlt, her]
          rw [happ]
          have hfstnd : ((c₁ ++ a :: c₂).map Prod.fst).Nodup := by
            rw [← hceq]; exact h.cachefst_nodup
          have hperm : (tracked r).Perm (f :: (r.new_frame_ ++ (c₁ ++ c₂).map Prod.fst)) := by
            have := perm_tracked_cache_split r hceq
            rwa [haf] at this
          exact inv_retire r f h _ _ hevT hperm
            (fun g hg =>
              ⟨hg, fun hgf => h.disjoint hg (hgf ▸ hmemfst)⟩)
            (fun q hq =>
              ⟨by
                rw [hceq]
                rcases List.mem_append.mp hq with hm | hm
                · exact List.mem_append.mpr (Or.inl hm)
                · exact List.mem_append.mpr (Or.inr (List.mem_cons_of_mem _ hm)),
                fun h1 => fst_ne_of_split hfstnd q hq (h1.trans haf.symm)⟩)
            (List.Pairwise.sublist (her ▸ List.eraseP_sublist _) h.sorted)

lemma inv_record_fresh (r : LRUKReplacer) (f : Int) (h : Inv r)
    (hle : ¬ f > (r.replacer_size_ : Int)) (h0 : r.recorded_cnt_ f = 0)
    (hk1 : r.k_ ≠ 1) :
    Inv (applyOp r (Op.record f)) := by
  have happ : applyOp r (Op.record f) =
      { r with
        current_timestamp_ := r.current_timestamp_ + 1
        recorded_cnt_ := fupd r.recorded_cnt_ f 1
        hist := fupd r.hist f (r.hist f ++ [r.current_timestamp_ + 1])
        evictable_ := fupd r.evictable_ f true
        curr_size_ := r.curr_size_ + 1
        new_frame_ := f :: r.new_frame_ } := by
    simp [applyOp, recordAccess_fresh r f hle h0 h.k_pos hk1]
  rw [happ]
  have hnotin : f ∉ tracked r := fun hm => absurd ((h.mem_iff f).mp hm) (by omega)
  have htr : tracked { r with
      current_timestamp_ := r.current_timestamp_ + 1
      recorded_cnt_ := fupd r.recorded_cnt_ f 1
      hist := fupd r.hist f (r.hist f ++ [r.current_timestamp_ + 1])
      evictable_ := fupd r.evictable_ f true
      curr_size_ := r.curr_size_ + 1
      new_frame_ := f :: r.new_frame_ } = f :: tracked r := by
    simp [tracked]
  constructor <;> dsimp only
  · exact h.k_pos
  · intro g
    rw [htr, List.mem_cons]
    by_cases hg : g = f
    · subst hg
      simp [fupd_same]
    · rw [fupd_ne _ _ hg]
      simp [hg, h.mem_iff g]
  · intro g hg
    rcases List.mem_cons.mp hg with rfl | hg'
    · rw [fupd_same]
      have := h.k_pos
      omega
    · have hgf : g ≠ f := fun hh =>
        hnotin (hh ▸ List.mem_append.mpr (Or.inl hg'))
      rw [fupd_ne _ _ hgf]
      exact h.new_cnt g hg'
  · intro p hp
    have hne : p.1 ≠ f := fun hh =>
      hnotin (hh ▸ List.mem_append.mpr (Or.inr (List.mem_map_of_mem Prod.fst hp)))
    rw [fupd_ne _ _ hne]
    exact h.cache_cnt p hp
  · rw [htr]
    exact List.nodup_cons.mpr ⟨hnotin, h.nodup⟩
  · have hcong : (tracked r).filter (fun g => fupd r.evictable_ f true g) =
        (tracked r).filter (fun g => r.evictable_ g) :=
      List.filter_congr (fun x hx => fupd_ne _ _ (fun hxf => hnotin (hxf ▸ hx)))
    rw [htr, List.filter_cons_of_pos (by rw [fupd_same]), hcong, List.length_cons, h.size_eq]
  · intro g
    by_cases hg : g = f
    · subst hg
      rw [fupd_same, fupd_same, List.length_append, h.hist_empty h0]
      have := h.k_pos
      simp
      omega
    · rw [fupd_ne _ _ hg, fupd_ne _ _ hg]
      exact h.hist_len g
  · exact h.sorted
  · intro p hp
    have hne : p.1 ≠ f := fun hh =>
      hnotin (hh ▸ List.mem_append.mpr (Or.inr (List.mem_map_of_mem Prod.fst hp)))
    rw [fupd_ne _ _ hne]
    exact h.cache_ts p hp
  · intro g hg
    rw [htr] at hg
    rcases List.mem_cons.mp hg with rfl | hg'
    · exact not_lt.mp hle
    · exact h.range g hg'

lemma inv_record_fresh_k1 (r : LRUKReplacer) (f : Int) (h : Inv r)
    (hle : ¬ f > (r.replacer_size_ : Int)) (h0 : r.recorded_cnt_ f = 0)
    (hk1 : r.k_ = 1) :
    Inv (applyOp r (Op.record f)) := by
  have happ : applyOp r (Op.record f) =
      { r with
        current_timestamp_ := r.current_timestamp_ + 1
        recorded_cnt_ := fupd r.recorded_cnt_ f 1
        hist := fupd r.hist f (r.hist f ++ [r.current_timestamp_ + 1])
        evictable_ := fupd r.evictable_ f true
        curr_size_ := r.curr_size_ + 1
        new_frame_ := r.new_frame_
        cache_frame_ :=
          insertUpperBound r.cache_frame_
            (f, (r.hist f ++ [r.current_timestamp_ + 1]).headD 0) } := by
    simp [applyOp, recordAccess_fresh_k1 r f hle h0 hk1]
  rw [happ]
  have hnotin : f ∉ tracked r := fun hm => absurd ((h.mem_iff f).mp hm) (by omega)
  have hperm : (tracked { r with
      current_timestamp_ := r.current_timestamp_ + 1
      recorded_cnt_ := fupd r.recorded_cnt_ f 1
      hist := fupd r.hist f (r.hist f ++ [r.current_timestamp_ + 1])
      evictable_ := fupd r.evictable_ f true
      curr_size_ := r.curr_size_ + 1
      new_frame_ := r.new_frame_
      cache_frame_ :=
        insertUpperBound r.cache_frame_
          (f, (r.hist f ++ [r.current_timestamp_ + 1]).headD 0) }).Perm
      (f :: tracked r) := by
    show (r.new_frame_ ++ (insertUpperBound r.cache_frame_
        (f, (r.hist f ++ [r.current_timestamp_ + 1]).headD 0)).map Prod.fst).Perm
      (f :: tracked r)
    have hm := (perm_insertUpperBound r.cache_frame_
        (f, (r.hist f ++ [r.current_timestamp_ + 1]).headD 0)).map Prod.fst
    have h2 := List.Perm.append_left r.new_frame_ hm
    refine h2.trans ?_
    rw [tracked, List.map_cons]
    exact List.perm_middle
  have hmemiff : ∀ g : Int, g ∈ tracked { r with
      current_timestamp_ := r.current_timestamp_ + 1
      recorded_cnt_ := fupd r.recorded_cnt_ f 1
      hist := fupd r.hist f (r.hist f ++ [r.current_timestamp_ + 1])
      evictable_ := fupd r.evictable_ f true
      curr_size_ := r.curr_size_ + 1
      new_frame_ := r.new_frame_
      cache_frame_ :=
        insertUpperBound r.cache_frame_
          (f, (r.hist f ++ [r.current_timestamp_ + 1]).headD 0) } ↔
      (g = f ∨ g ∈ tracked r) := by
    intro g
    rw [hperm.mem_iff, List.mem_cons]
  constructor <;> dsimp only
  · exact h.k_pos
  · intro g
    rw [hmemiff g]
    by_cases hg : g = f
    · subst hg
      simp [fupd_same]
    · rw [fupd_ne _ _ hg]
      simp [hg, h.mem_iff g]
  · intro g hg
    have hgf : g ≠ f := fun hh =>
      hnotin (hh ▸ List.mem_append.mpr (Or.inl hg))
    rw [fupd_ne _ _ hgf]
    exact h.new_cnt g hg
  · intro p hp
    rcases mem_insertUpperBound.mp hp with rfl | hp'
    · rw [fupd_same, hk1]
    · have hne : p.1 ≠ f := fun hh =>
        hnotin (hh ▸ List.mem_append.mpr (Or.inr (List.mem_map_of_mem Prod.fst hp')))
      rw [fupd_ne _ _ hne]
      exact h.cache_cnt p hp'
  · exact hperm.nodup_iff.mpr (List.nodup_cons.mpr ⟨hnotin, h.nodup⟩)
  · have hcong : (tracked r).filter (fun g => fupd r.evictable_ f true g) =
        (tracked r).filter (fun g => r.evictable_ g) :=
      List.filter_congr (fun x hx => fupd_ne _ _ (fun hxf => hnotin (hxf ▸ hx)))
    have hfil := (hperm.filter (fun g => fupd r.evictable_ f true g)).length_eq
    rw [List.filter_cons_of_pos (by rw [fupd_same]), List.length_cons, hcong] at hfil
    have hsz := h.size_eq
    omega
  · intro g
    by_cases hg : g = f
    · subst hg
      rw [fupd_same, fupd_same, List.length_append, h.hist_empty h0, hk1]
      simp
    · rw [fupd_ne _ _ hg, fupd_ne _ _ hg]
      exact h.hist_len g
  · exact pairwise_insertUpperBound h.sorted
  · intro p hp
    rcases mem_insertUpperBound.mp hp with rfl | hp'
    · rw [fupd_same]
    · have hne : p.1 ≠ f := fun hh =>
        hnotin (hh ▸ List.mem_append.mpr (Or.inr (List.mem_map_of_mem Prod.fst hp')))
      rw [fupd_ne _ _ hne]
      exact h.cache_ts p hp'
  · intro g hg
    rcases (hmemiff g).mp hg with rfl | hg'
    · exact not_lt.mp hle
    · exact h.range g hg'

lemma inv_record_mid (r : LRUKReplacer) (f : Int) (h : Inv r)
    (hle : ¬ f > (r.replacer_size_ : Int)) (hpos : 0 < r.recorded_cnt_ f)
    (hlt : r.recorded_cnt_ f + 1 < r.k_) :
    Inv (applyOp r (Op.record f)) := by
  have happ : applyOp r (Op.record f) =
      { r with
        current_timestamp_ := r.current_timestamp_ + 1
        recorded_cnt_ := fupd r.recorded_cnt_ f (r.recorded_cnt_ f + 1)
        hist := fupd r.hist f (r.hist f ++ [r.current_timestamp_ + 1]) } := by
    simp [applyOp, recordAccess_mid r f hle hpos hlt]
  rw [happ]
  have hmem : f ∈ tracked r := (h.mem_iff f).mpr hpos
  constructor <;> dsimp only
  · exact h.k_pos
  · intro g
    by_cases hg : g = f
    · subst hg
      rw [fupd_same]
      show g ∈ tracked r ↔ 0 < r.recorded_cnt_ g + 1
      simp [hmem]
    · rw [fupd_ne _ _ hg]
      exact h.mem_iff g
  · intro g hg
    by_cases hg' : g = f
    · subst hg'
      rw [fupd_same]
      omega
    · rw [fupd_ne _ _ hg']
      exact h.new_cnt g hg
  · intro p hp
    by_cases hp1 : p.1 = f
    · exfalso
      have := h.cache_cnt p hp
      rw [hp1] at this
      omega
    · rw [fupd_ne _ _ hp1]
      exact h.cache_cnt p hp
  · exact h.nodup
  · exact h.size_eq
  · intro g
    by_cases hg : g = f
    · subst hg
      rw [fupd_same, fupd_same, List.length_append, h.hist_len g]
      simp
      omega
    · rw [fupd_ne _ _ hg, fupd_ne _ _ hg]
      exact h.hist_len g
  · exact h.sorted
  · intro p hp
    have hp1 : p.1 ≠ f := by
      intro hh
      have := h.cache_cnt p hp
      rw [hh] at this
      omega
    rw [fupd_ne _ _ hp1]
    exact h.cache_ts p hp
  · exact h.range

lemma perm_tracked_new_split (r : LRUKReplacer) {n₁ n₂ : List Int} {f : Int}
    (hne : r.new_frame_ = n₁ ++ f :: n₂) :
    (tracked r).Perm (f :: ((n₁ ++ n₂) ++ r.cache_frame_.map Prod.fst)) := by
  rw [tracked, hne]
  simp only [List.append_assoc, List.cons_append]
  exact List.perm_middle

lemma inv_record_promote (r : LRUKReplacer) (f : Int) (h : Inv r)
    (hle : ¬ f > (r.replacer_size_ : Int)) (hpos : 0 < r.recorded_cnt_ f)
    (heq : r.recorded_cnt_ f + 1 = r.k_) :
    Inv (applyOp r (Op.record f)) := by
  have hfmem : f ∈ r.new_frame_ := h.mem_new_of hpos (by omega)
  obtain ⟨a, n₁, n₂, hn₁, ha, hne, her⟩ :=
    List.exists_of_eraseP (p := fun g => g == f) hfmem (by simp)
  have haf : a = f := by simpa using ha
  subst haf
  have happ : applyOp r (Op.record a) =
      { r with
        current_timestamp_ := r.current_timestamp_ + 1
        recorded_cnt_ := fupd r.recorded_cnt_ a (r.recorded_cnt_ a + 1)
        hist := fupd r.hist a (r.hist a ++ [r.current_timestamp_ + 1])
        new_frame_ := n₁ ++ n₂
        cache_frame_ :=
          insertUpperBound r.cache_frame_
            (a, (r.hist a ++ [r.current_timestamp_ + 1]).headD 0) } := by
    simp [applyOp, recordAccess_promote r a hle hpos heq, her]
  rw [happ]
  have hnodupnew : (n₁ ++ a :: n₂).Nodup := hne ▸ h.new_nodup
  have hdisj : a ∉ r.cache_frame_.map Prod.fst := h.disjoint hfmem
  have hperm : (tracked { r with
      current_timestamp_ := r.current_timestamp_ + 1
      recorded_cnt_ := fupd r.recorded_cnt_ a (r.recorded_cnt_ a + 1)
      hist := fupd r.hist a (r.hist a ++ [r.current_timestamp_ + 1])
      new_frame_ := n₁ ++ n₂
      cache_frame_ :=
        insertUpperBound r.cache_frame_
          (a, (r.hist a ++ [r.current_timestamp_ + 1]).headD 0) }).Perm (tracked r) := by
    show (((n₁ ++ n₂) ++ (insertUpperBound r.cache_frame_
        (a, (r.hist a ++ [r.current_timestamp_ + 1]).headD 0)).map Prod.fst)).Perm (tracked r)
    have hm := (perm_insertUpperBound r.cache_frame_
        (a, (r.hist a ++ [r.current_timestamp_ + 1]).headD 0)).map Prod.fst
    have h2 := List.Perm.append_left (n₁ ++ n₂) hm
    refine (h2.trans ?_).trans (perm_tracked_new_split r hne).symm
    rw [List.map_cons]
    exact List.perm_middle
  have hmemnew : ∀ g ∈ n₁ ++ n₂, g ∈ r.new_frame_ := by
    intro g hg
    rw [hne]
    rcases List.mem_append.mp hg with hm | hm
    · exact List.mem_append.mpr (Or.inl hm)
    · exact List.mem_append.mpr (Or.inr (List.mem_cons_of_mem _ hm))
  constructor <;> dsimp only
  · exact h.k_pos
  · intro g
    rw [hperm.mem_iff]
    by_cases hg : g = a
    · subst hg
      rw [fupd_same]
      simp [(h.mem_iff g).mpr hpos]
    · rw [fupd_ne _ _ hg]
      exact h.mem_iff g
  · intro g hg
    have hgf : g ≠ a := ne_of_split_new hnodupnew g hg
    rw [fupd_ne _ _ hgf]
    exact h.new_cnt g (hmemnew g hg)
  · intro p hp
    rcases mem_insertUpperBound.mp hp with rfl | hp'
    · rw [fupd_same]
      omega
    · have hp1 : p.1 ≠ a := fun hh => hdisj (hh ▸ List.mem_map_of_mem Prod.fst hp')
      rw [fupd_ne _ _ hp1]
      exact h.cache_cnt p hp'
  · exact hperm.nodup_iff.mpr h.nodup
  · have hfil := (hperm.filter (fun g => r.evictable_ g)).length_eq
    have hsz := h.size_eq
    omega
  · intro g
    by_cases hg : g = a
    · subst hg
      rw [fupd_same, fupd_same, List.length_append]
      have hl := h.hist_len g
      simp only [List.length_singleton]
      omega
    · rw [fupd_ne _ _ hg, fupd_ne _ _ hg]
      exact h.hist_len g
  · exact pairwise_insertUpperBound h.sorted
  · intro p hp
    rcases mem_insertUpperBound.mp hp with rfl | hp'
    · rw [fupd_same]
    · have hp1 : p.1 ≠ a := fun hh => hdisj (hh ▸ List.mem_map_of_mem Prod.fst hp')
      rw [fupd_ne _ _ hp1]
      exact h.cache_ts p hp'
  · intro g hg
    rw [hperm.mem_iff] at hg
    exact h.range g hg

lemma inv_record_rerank (r : LRUKReplacer) (f : Int) (h : Inv r)
    (hle : ¬ f > (r.replacer_size_ : Int)) (hpos : 0 < r.recorded_cnt_ f)
    (hgt : r.k_ < r.recorded_cnt_ f + 1) :
    Inv (applyOp r (Op.record f)) := by
  have hge : r.k_ ≤ r.recorded_cnt_ f := by omega
  have hmemfst : f ∈ r.cache_frame_.map Prod.fst := h.mem_cachefst_of hge
  obtain ⟨p₀, hp₀, hp₀1⟩ := List.mem_map.mp hmemfst
  obtain ⟨a, c₁, c₂, hc₁, ha, hceq, her⟩ :=
    List.exists_of_eraseP (p := fun q => q.1 == f) hp₀ (by simp [hp₀1])
  have haf : a.1 = f := by simpa using ha
  have happ : applyOp r (Op.record f) =
      { r with
        current_timestamp_ := r.current_timestamp_ + 1
        recorded_cnt_ := fupd r.recorded_cnt_ f (r.recorded_cnt_ f + 1)
        hist := fupd r.hist f ((r.hist f ++ [r.current_timestamp_ + 1]).tail)
        cache_frame_ :=
          insertUpperBound (c₁ ++ c₂)
            (f, ((r.hist f ++ [r.current_timestamp_ + 1]).tail).headD 0) } := by
    simp [applyOp, recordAccess_rerank r f hle hpos hgt, her]
  rw [happ]
  have hfstnd : ((c₁ ++ a :: c₂).map Prod.fst).Nodup := by
    rw [← hceq]; exact h.cachefst_nodup
  have hmemc : ∀ q ∈ c₁ ++ c₂, q ∈ r.cache_frame_ := by
    intro q hq
    rw [hceq]
    rcases List.mem_append.mp hq with hm | hm
    · exact List.mem_append.mpr (Or.inl hm)
    · exact List.mem_append.mpr (Or.inr (List.mem_cons_of_mem _ hm))
  have hqne : ∀ q ∈ c₁ ++ c₂, q.1 ≠ f := by
    intro q hq h1
    exact fst_ne_of_split hfstnd q hq (h1.trans haf.symm)
  have hperm : (tracked { r with
      current_timestamp_ := r.current_timestamp_ + 1
      recorded_cnt_ := fupd r.recorded_cnt_ f (r.recorded_cnt_ f + 1)
      hist := fupd r.hist f ((r.hist f ++ [r.current_timestamp_ + 1]).tail)
      cache_frame_ :=
        insertUpperBound (c₁ ++ c₂)
          (f, ((r.hist f ++ [r.current_timestamp_ + 1]).tail).headD 0) }).Perm (tracked r) := by
    show (r.new_frame_ ++ (insertUpperBound (c₁ ++ c₂)
        (f, ((r.hist f ++ [r.current_timestamp_ + 1]).tail).headD 0)).map Prod.fst).Perm
      (tracked r)
    have hm := (perm_insertUpperBound (c₁ ++ c₂)
        (f, ((r.hist f ++ [r.current_timestamp_ + 1]).tail).headD 0)).map Prod.fst
    have h2 := List.Perm.append_left r.new_frame_ hm
    have h3 : (tracked r).Perm (f :: (r.new_frame_ ++ (c₁ ++ c₂).map Prod.fst)) := by
      have := perm_tracked_cache_split r hceq
      rwa [haf] at this
    refine (h2.trans ?_).trans h3.symm
    rw [List.map_cons]
    exact List.perm_middle
  have hhlen : (r.hist f).length = r.k_ := by
    have := h.hist_len f
    omega
  constructor <;> dsimp only
  · exact h.k_pos
  · intro g
    rw [hperm.mem_iff]
    by_cases hg : g = f
    · subst hg
      rw [fupd_same]
      simp [(h.mem_iff g).mpr hpos]
    · rw [fupd_ne _ _ hg]
      exact h.mem_iff g
  · intro g hg
    have hgf : g ≠ f := fun hh => h.disjoint hg (hh ▸ hmemfst)
    rw [fupd_ne _ _ hgf]
    exact h.new_cnt g hg
  · intro p hp
    rcases mem_insertUpperBound.mp hp with rfl | hp'
    · rw [fupd_same]
      omega
    · have hp1 : p.1 ≠ f := hqne p hp'
      rw [fupd_ne _ _ hp1]
      exact h.cache_cnt p (hmemc p hp')
  · exact hperm.nodup_iff.mpr h.nodup
  · have hfil := (hperm.filter (fun g => r.evictable_ g)).length_eq
    have hsz := h.size_eq
    omega
  · intro g
    by_cases hg : g = f
    · subst hg
      rw [fupd_same, fupd_same, List.length_tail, List.length_append]
      simp only [List.length_singleton]
      have := h.k_pos
      omega
    · rw [fupd_ne _ _ hg, fupd_ne _ _ hg]
      exact h.hist_len g
  · exact pairwise_insertUpperBound
      (List.Pairwise.sublist (her ▸ List.eraseP_sublist _) h.sorted)
  · intro p hp
    rcases mem_insertUpperBound.mp hp with rfl | hp'
    · rw [fupd_same]
    · have hp1 : p.1 ≠ f := hqne p hp'
      rw [fupd_ne _ _ hp1]
      exact h.cache_ts p (hmemc p hp')
  · intro g hg
    rw [hperm.mem_iff] at hg
    exact h.range g hg

lemma inv_record (r : LRUKReplacer) (f : Int) (h : Inv r) :
    Inv (applyOp r (Op.record f)) := by
  by_cases hle : f > (r.replacer_size_ : Int)
  · simpa [applyOp, recordAccess_err r f hle] using h
  · by_cases h0 : r.recorded_cnt_ f = 0
    · by_cases hk1 : r.k_ = 1
      · exact inv_record_fresh_k1 r f h hle h0 hk1
      · exact inv_record_fresh r f h hle h0 hk1
    · have hpos := Nat.pos_of_ne_zero h0
      rcases lt_trichotomy (r.recorded_cnt_ f + 1) r.k_ with hlt | heq | hgt
      · exact inv_record_mid r f h hle hpos hlt
      · exact inv_record_promote r f h hle hpos heq
      · exact inv_record_rerank r f h hle hpos hgt

lemma inv_applyOp (r : LRUKReplacer) (o : Op) (h : Inv r) : Inv (applyOp r o) := by
  cases o with
  | record f => exact inv_record r f h
  | setEv f b => exact inv_setEvictable r f b h
  | evict => exact inv_evict r h
  | remove f => exact inv_remove r f h

lemma inv_runOps {r : LRUKReplacer} (ops : List Op) (h : Inv r) : Inv (runOps r ops) := by
  induction ops generalizing r with
  | nil => exact h
  | cons o rest ih => exact ih (inv_applyOp r o h)

lemma inv_reach (cap k : Nat) (ops : List Op) (hk : 1 ≤ k) :
    Inv (runOps (init cap k) ops) :=
  inv_runOps ops (inv_init cap k hk)

lemma applyOp_preserves (r : LRUKReplacer) (o : Op) (h : Inv r) :
    (applyOp r o).k_ = r.k_ ∧ (applyOp r o).replacer_size_ = r.replacer_size_ := by
  cases o with
  | record f =>
      by_cases hle : f > (r.replacer_size_ : Int)
      · simp [applyOp, recordAccess_err r f hle]
      · by_cases h0 : r.recorded_cnt_ f = 0
        · by_cases hk1 : r.k_ = 1
          · simp [applyOp, recordAccess_fresh_k1 r f hle h0 hk1]
          · simp [applyOp, recordAccess_fresh r f hle h0 h.k_pos hk1]
        · have hpos := Nat.pos_of_ne_zero h0
          rcases lt_trichotomy (r.recorded_cnt_ f + 1) r.k_ with hlt | heq | hgt
          · simp [applyOp, recordAccess_mid r f hle hpos hlt]
          · simp [applyOp, recordAccess_promote r f hle hpos heq]
          · simp [applyOp, recordAccess_rerank r f hle hpos hgt]
  | setEv f b =>
      by_cases hle : f > (r.replacer_size_ : Int)
      · simp [applyOp, setEvictable_err r f b hle]
      · by_cases hno : r.evictable_ f = b ∨ r.recorded_cnt_ f = 0
        · simp [applyOp, setEvictable_noop r f b hle hno]
        · push_neg at hno
          simp [applyOp, setEvictable_toggle r f b hle hno.1 hno.2]
  | evict =>
      by_cases hsz : r.Size = 0
      · simp [applyOp, evict_size_zero r hsz]
      · cases hfind : r.new_frame_.reverse.find? (fun g => r.evictable_ g) with
        | some f => simp [applyOp, evict_early r f hsz hfind]
        | none =>
            cases hfind2 : r.cache_frame_.find? (fun q => r.evictable_ q.1) with
            | some p => simp [applyOp, evict_cache r p hsz hfind hfind2]
            | none => simp [applyOp, evict_not_found r hfind hfind2]
  | remove f =>
      by_cases hle : f > (r.replacer_size_ : Int)
      · simp [applyOp, remove_err r f hle]
      · by_cases hev : r.evictable_ f = false
        · simp [applyOp, remove_not_evictable r f hle hev]
        · have hevT : r.evictable_ f = true := by
            cases hb : r.evictable_ f
            · exact absurd hb hev
            · rfl
          by_cases hcnt : r.recorded_cnt_ f = 0
          · simp [applyOp, remove_noop r f hle hevT hcnt]
          · by_cases hlt : r.recorded_cnt_ f < r.k_
            · simp [applyOp, remove_early r f hle hevT hcnt hlt]
            · simp [applyOp, remove_cache r f hle hevT hcnt hlt]

lemma runOps_preserves (r : LRUKReplacer) (ops : List Op) (h : Inv r) :
    (runOps r ops).k_ = r.k_ ∧ (runOps r ops).replacer_size_ = r.replacer_size_ := by
  induction ops generalizing r with
  | nil => exact ⟨rfl, rfl⟩
  | cons o rest ih =>
      have h1 := ih (applyOp r o) (inv_applyOp r o h)
      have h2 := applyOp_preserves r o h
      exact ⟨h1.1.trans h2.1, h1.2.trans h2.2⟩

lemma runOps_init_k (cap k : Nat) (ops : List Op) (hk : 1 ≤ k) :
    (runOps (init cap k) ops).k_ = k ∧
      (runOps (init cap k) ops).replacer_size_ = cap :=
  runOps_preserves (init cap k) ops (inv_init cap k hk)

/-- Facts about the post-state of a successful `Evict`: the returned
frame's count and history are cleared, dimension fields are untouched,
and the id was in range. -/
lemma evict_ok_dest (r : LRUKReplacer) (h : Inv r) (f : Int) (r' : LRUKReplacer)
    (he : r.Evict = some (f, r')) :
    r'.recorded_cnt_ f = 0 ∧ r'.hist f = [] ∧ r'.k_ = r.k_ ∧
      r'.replacer_size_ = r.replacer_size_ ∧ f ≤ (r.replacer_size_ : Int) := by
  by_cases hsz : r.Size = 0
  · rw [evict_size_zero r hsz] at he
    cases he
  · cases hfind : r.new_frame_.reverse.find? (fun g => r.evictable_ g) with
    | some g₀ =>
        rw [evict_early r g₀ hsz hfind] at he
        injection he with h12
        injection h12 with ha hb
        subst ha
        subst hb
        refine ⟨fupd_same _ _ _, fupd_same _ _ _, rfl, rfl, ?_⟩
        exact h.range _ (List.mem_append.mpr
          (Or.inl (List.mem_reverse.mp (List.mem_of_find?_eq_some hfind))))
    | none =>
        cases hfind2 : r.cache_frame_.find? (fun q => r.evictable_ q.1) with
        | some p =>
            rw [evict_cache r p hsz hfind hfind2] at he
            injection he with h12
            injection h12 with ha hb
            subst ha
            subst hb
            refine ⟨fupd_same _ _ _, fupd_same _ _ _, rfl, rfl, ?_⟩
            exact h.range _ (List.mem_append.mpr
              (Or.inr (List.mem_map_of_mem Prod.fst (List.mem_of_find?_eq_some hfind2))))
        | none =>
            rw [evict_not_found r hfind hfind2] at he
            cases he

/-- Facts about the post-state of a successful `Remove` (including the
silent no-op when the count is zero). -/
lemma remove_ok_dest (r : LRUKReplacer) (h : Inv r) (f : Int) (r' : LRUKReplacer)
    (he : r.Remove f = .ok r') :
    r'.recorded_cnt_ f = 0 ∧ r'.hist f = [] ∧ r'.k_ = r.k_ ∧
      r'.replacer_size_ = r.replacer_size_ ∧ f ≤ (r.replacer_size_ : Int) := by
  by_cases hle : f > (r.replacer_size_ : Int)
  · rw [remove_err r f hle] at he
    cases he
  · by_cases hev : r.evictable_ f = false
    · rw [remove_not_evictable r f hle hev] at he
      cases he
    · have hevT : r.evictable_ f = true := by
        cases hb : r.evictable_ f
        · exact absurd hb hev
        · rfl
      by_cases hcnt : r.recorded_cnt_ f = 0
      · rw [remove_noop r f hle hevT hcnt] at he
        injection he with h'
        subst h'
        exact ⟨hcnt, h.hist_empty hcnt, rfl, rfl, not_lt.mp hle⟩
      · by_cases hlt : r.recorded_cnt_ f < r.k_
        · rw [remove_early r f hle hevT hcnt hlt] at he
          injection he with h'
          subst h'
          exact ⟨fupd_same _ _ _, fupd_same _ _ _, rfl, rfl, not_lt.mp hle⟩
        · rw [remove_cache r f hle hevT hcnt hlt] at he
          injection he with h'
          subst h'
          exact ⟨fupd_same _ _ _, fupd_same _ _ _, rfl, rfl, not_lt.mp hle⟩

lemma mem_eraseP_of_ne {α : Type} {p : α → Bool} {g : α} :
    ∀ {l : List α}, g ∈ l → p g = false → g ∈ l.eraseP p := by
  intro l
  induction l with
  | nil => intro hg _; cases hg
  | cons a l ih =>
      intro hg hpg
      rw [List.eraseP_cons]
      cases ha : p a with
      | true =>
          simp only [cond_true]
          rcases List.mem_cons.mp hg with rfl | hm
          · rw [ha] at hpg; cases hpg
          · exact hm
      | false =>
          simp only [cond_false]
          rcases List.mem_cons.mp hg with rfl | hm
          · exact List.mem_cons_self _ _
          · exact List.mem_cons_of_mem _ (ih hm hpg)

/-- Whether a call returned normally (no C++ exception). -/
def exceptIsOk (e : Except RErr LRUKReplacer) : Bool :=
  match e with
  | .ok _ => true
  | .error _ => false

/-- The state after a successful `Evict` (unchanged state if it failed). -/
def evictState (r : LRUKReplacer) : LRUKReplacer :=
  match r.Evict with
  | some q => q.2
  | none => r

/-- The number of frames with a positive access count and a set evictable
flag (the tracked list enumerates each such frame exactly once in any
reachable state). -/
def evictableCount (r : LRUKReplacer) : Nat :=
  ((tracked r).filter (fun f => decide (0 < r.recorded_cnt_ f) && r.evictable_ f)).length

/-- C2: after any sequence of calls starting from a fresh replacer with
k ≥ 1, `Size()` equals the number of frames whose access count is positive
and whose evictable flag is true; the tracked list enumerates those frames
without duplication. -/
theorem size_matches_count_c2 (cap k : Nat) (ops : List Op) (r : LRUKReplacer)
    (hk : 1 ≤ k) (hr : r = runOps (LRUKReplacer.init cap k) ops) :
    r.Size = evictableCount r ∧ (tracked r).Nodup ∧
      (∀ f : Int, (0 < r.recorded_cnt_ f ∧ r.evictable_ f = true) ↔
        (f ∈ tracked r ∧ r.evictable_ f = true)) := by
  have h : Inv r := hr ▸ inv_reach cap k ops hk
  refine ⟨?_, h.nodup, ?_⟩
  · have hcong : (tracked r).filter (fun f => decide (0 < r.recorded_cnt_ f) && r.evictable_ f)
        = (tracked r).filter (fun f => r.evictable_ f) := by
      apply List.filter_congr
      intro x hx
      simp [(h.mem_iff x).mp hx]
    unfold LRUKReplacer.Size evictableCount
    rw [hcong, ← h.size_eq]
  · intro f
    constructor
    · rintro ⟨h1, h2⟩
      exact ⟨(h.mem_iff f).mpr h1, h2⟩
    · rintro ⟨h1, h2⟩
      exact ⟨(h.mem_iff f).mp h1, h2⟩

/-- Witness for C2 at a concrete run. -/
theorem size_matches_count_c2_witness :
    (1 : Nat) ≤ 2 ∧
    ((runOps (LRUKReplacer.init 5 2)
        [Op.record 1, Op.record 2, Op.setEv 1 false, Op.record 2]).Size =
      evictableCount (runOps (LRUKReplacer.init 5 2)
        [Op.record 1, Op.record 2, Op.setEv 1 false, Op.record 2]) ∧
    (tracked (runOps (LRUKReplacer.init 5 2)
        [Op.record 1, Op.record 2, Op.setEv 1 false, Op.record 2])).Nodup ∧
    (∀ f : Int,
      (0 < (runOps (LRUKReplacer.init 5 2)
          [Op.record 1, Op.record 2, Op.setEv 1 false, Op.record 2]).recorded_cnt_ f ∧
        (runOps (LRUKReplacer.init 5 2)
          [Op.record 1, Op.record 2, Op.setEv 1 false, Op.record 2]).evictable_ f = true) ↔
      (f ∈ tracked (runOps (LRUKReplacer.init 5 2)
          [Op.record 1, Op.record 2, Op.setEv 1 false, Op.record 2]) ∧
        (runOps (LRUKReplacer.init 5 2)
          [Op.record 1, Op.record 2, Op.setEv 1 false, Op.record 2]).evictable_ f = true))) :=
  ⟨by decide,
   size_matches_count_c2 5 2 [Op.record 1, Op.record 2, Op.setEv 1 false, Op.record 2] _
     (by decide) rfl⟩

/-- C3: for a replacer constructed with k ≥ 1, no frame's access history
ever exceeds k entries, whatever calls are made. -/
theorem hist_length_le_k_c3 (cap k : Nat) (ops : List Op) (r : LRUKReplacer)
    (hk : 1 ≤ k) (hr : r = runOps (LRUKReplacer.init cap k) ops) :
    ∀ f : Int, (r.hist f).length ≤ k := by
  have h : Inv r := hr ▸ inv_reach cap k ops hk
  have hkk : r.k_ = k := hr ▸ (runOps_init_k cap k ops hk).1
  intro f
  have := h.hist_len f
  omega

/-- Witness for C3 at a concrete run with repeated accesses. -/
theorem hist_length_le_k_c3_witness :
    (1 : Nat) ≤ 2 ∧
    ∀ f : Int,
      ((runOps (LRUKReplacer.init 3 2)
        [Op.record 1, Op.record 1, Op.record 1, Op.record 1]).hist f).length ≤ 2 :=
  ⟨by decide,
   hist_length_le_k_c3 3 2 [Op.record 1, Op.record 1, Op.record 1, Op.record 1] _
     (by decide) rfl⟩

/-- C4 (code bug): the validity check `frame_id > replacer_size_` is
off by one and never rejects negative ids.  With capacity 4, the id 4 and
the id -1 are accepted and tracked by `RecordAccess`, `SetEvictable` and
`Remove` operate on id 4 without an error, while the claim (and the spec's
stated contract) requires every id outside [0, capacity) to fail with
`InvalidFrame` and leave the state unchanged.  Only ids strictly greater
than the capacity are rejected. -/
theorem range_check_offbyone_c4 :
    exceptIsOk ((LRUKReplacer.init 4 2).RecordAccess 4) = true ∧
    exceptIsOk ((LRUKReplacer.init 4 2).RecordAccess (-1)) = true ∧
    (runOps (LRUKReplacer.init 4 2) [Op.record 4]).recorded_cnt_ 4 = 1 ∧
    (runOps (LRUKReplacer.init 4 2) [Op.record (-1)]).recorded_cnt_ (-1) = 1 ∧
    exceptIsOk ((runOps (LRUKReplacer.init 4 2) [Op.record 4]).SetEvictable 4 false) = true ∧
    exceptIsOk ((runOps (LRUKReplacer.init 4 2) [Op.record 4]).Remove 4) = true ∧
    exceptIsOk ((LRUKReplacer.init 4 2).RecordAccess 5) = false := by
  decide

/-- C5 counterexample: `Remove` on an in-range frame id that has never
been accessed is not a silent no-op — the default evictable flag is
`false`, so the evictability guard fires first and the call raises
`NotEvictable`. -/
theorem remove_never_accessed_c5_cex :
    (LRUKReplacer.init 4 2).Remove 0 = .error .notEvictable := by
  rfl

/-- C5 amended: for an in-range frame with access count 0, `Remove`
raises `NotEvictable` when the frame's evictable flag is false (which is
the case for every never-accessed frame) and is a silent no-op exactly
when the flag is true (e.g. for a previously evicted id). -/
theorem remove_count_zero_c5 (r : LRUKReplacer) (f : Int)
    (hle : ¬ f > (r.replacer_size_ : Int)) (h0 : r.recorded_cnt_ f = 0) :
    (r.evictable_ f = false → r.Remove f = .error .notEvictable) ∧
    (r.evictable_ f = true → r.Remove f = .ok r) :=
  ⟨fun hev => remove_not_evictable r f hle hev,
   fun hev => remove_noop r f hle hev h0⟩

/-- Witness for the amended C5 on a fresh replacer. -/
theorem remove_count_zero_c5_witness :
    (¬ (0 : Int) > ((LRUKReplacer.init 4 2).replacer_size_ : Int)) ∧
    (LRUKReplacer.init 4 2).recorded_cnt_ 0 = 0 ∧
    (((LRUKReplacer.init 4 2).evictable_ 0 = false →
        (LRUKReplacer.init 4 2).Remove 0 = .error .notEvictable) ∧
      ((LRUKReplacer.init 4 2).evictable_ 0 = true →
        (LRUKReplacer.init 4 2).Remove 0 = .ok (LRUKReplacer.init 4 2))) :=
  ⟨by decide, rfl, remove_count_zero_c5 (LRUKReplacer.init 4 2) 0 (by decide) rfl⟩

/-- C6: `Remove` on a tracked but non-evictable (pinned) frame fails with
`NotEvictable`, and the replacer state is exactly what it was before the
call (the C++ throw precedes every mutation). -/
theorem remove_pinned_error_c6 (r : LRUKReplacer) (f : Int)
    (hle : ¬ f > (r.replacer_size_ : Int)) (hcnt : 0 < r.recorded_cnt_ f)
    (hev : r.evictable_ f = false) :
    r.Remove f = .error .notEvictable ∧ applyOp r (Op.remove f) = r := by
  have h1 := remove_not_evictable r f hle hev
  exact ⟨h1, by simp [applyOp, h1]⟩

/-- Witness for C6: a frame accessed once and then pinned. -/
theorem remove_pinned_error_c6_witness :
    (¬ (1 : Int) >
      ((runOps (LRUKReplacer.init 4 2) [Op.record 1, Op.setEv 1 false]).replacer_size_ : Int)) ∧
    0 < (runOps (LRUKReplacer.init 4 2) [Op.record 1, Op.setEv 1 false]).recorded_cnt_ 1 ∧
    (runOps (LRUKReplacer.init 4 2) [Op.record 1, Op.setEv 1 false]).evictable_ 1 = false ∧
    ((runOps (LRUKReplacer.init 4 2) [Op.record 1, Op.setEv 1 false]).Remove 1 =
      .error .notEvictable ∧
     applyOp (runOps (LRUKReplacer.init 4 2) [Op.record 1, Op.setEv 1 false]) (Op.remove 1) =
      runOps (LRUKReplacer.init 4 2) [Op.record 1, Op.setEv 1 false]) :=
  ⟨by decide, by decide, by decide,
   remove_pinned_error_c6 (runOps (LRUKReplacer.init 4 2) [Op.record 1, Op.setEv 1 false]) 1
     (by decide) (by decide) (by decide)⟩

/-- C8: in every reachable state the Stable Set is sorted ascending by its
members' stored timestamps, each stored timestamp is the member's current
Kth-back timestamp (the oldest retained history entry), and the
`upper_bound` insertion places a new entry after every entry with a
smaller-or-equal timestamp and before every strictly greater one — so
members with equal Kth-back timestamps stand in insertion order. -/
theorem stable_sorted_c8 (cap k : Nat) (ops : List Op) (r : LRUKReplacer)
    (hk : 1 ≤ k) (hr : r = runOps (LRUKReplacer.init cap k) ops) :
    r.cache_frame_.Pairwise (fun a b => a.2 ≤ b.2) ∧
    (∀ p ∈ r.cache_frame_, p.2 = (r.hist p.1).headD 0) ∧
    (∀ (l : List (Int × Nat)) (v : Int × Nat), l.Pairwise (fun a b => a.2 ≤ b.2) →
      insertUpperBound l v =
        l.filter (fun x => decide (x.2 ≤ v.2)) ++ v :: l.filter (fun x => decide (v.2 < x.2))) := by
  have h : Inv r := hr ▸ inv_reach cap k ops hk
  exact ⟨h.sorted, h.cache_ts, fun l v hs => insertUpperBound_sorted_eq v hs⟩

/-- Witness for C8 at a run that promotes and re-ranks Stable members. -/
theorem stable_sorted_c8_witness :
    (1 : Nat) ≤ 2 ∧
    ((runOps (LRUKReplacer.init 5 2)
        [Op.record 1, Op.record 2, Op.record 2, Op.record 1, Op.record 1]).cache_frame_.Pairwise
      (fun a b => a.2 ≤ b.2) ∧
    (∀ p ∈ (runOps (LRUKReplacer.init 5 2)
        [Op.record 1, Op.record 2, Op.record 2, Op.record 1, Op.record 1]).cache_frame_,
      p.2 = ((runOps (LRUKReplacer.init 5 2)
        [Op.record 1, Op.record 2, Op.record 2, Op.record 1, Op.record 1]).hist p.1).headD 0) ∧
    (∀ (l : List (Int × Nat)) (v : Int × Nat), l.Pairwise (fun a b => a.2 ≤ b.2) →
      insertUpperBound l v =
        l.filter (fun x => decide (x.2 ≤ v.2)) ++ v :: l.filter (fun x => decide (v.2 < x.2)))) :=
  ⟨by decide,
   stable_sorted_c8 5 2 [Op.record 1, Op.record 2, Op.record 2, Op.record 1, Op.record 1] _
     (by decide) rfl⟩

/-- C9: a successful `Evict` returning `f`, or a successful `Remove f`,
leaves every other frame's history, count and evictable flag untouched,
and the surviving Early-Set and Stable-Set entries keep their relative
order (the new lists are sublists of the old ones, missing only `f`). -/
theorem retire_isolation_c9 (r : LRUKReplacer) (f : Int) (r' : LRUKReplacer)
    (h' : r.Evict = some (f, r') ∨ r.Remove f = .ok r') :
    (∀ g : Int, g ≠ f →
      r'.hist g = r.hist g ∧ r'.recorded_cnt_ g = r.recorded_cnt_ g ∧
        r'.evictable_ g = r.evictable_ g) ∧
    r'.new_frame_.Sublist r.new_frame_ ∧ r'.cache_frame_.Sublist r.cache_frame_ ∧
    (∀ g ∈ r.new_frame_, g ≠ f → g ∈ r'.new_frame_) ∧
    (∀ q ∈ r.cache_frame_, q.1 ≠ f → q ∈ r'.cache_frame_) := by
  rcases h' with he | he
  · by_cases hsz : r.Size = 0
    · rw [evict_size_zero r hsz] at he
      cases he
    · cases hfind : r.new_frame_.reverse.find? (fun g => r.evictable_ g) with
      | some g₀ =>
          rw [evict_early r g₀ hsz hfind] at he
          injection he with h12
          injection h12 with ha hb
          subst ha
          subst hb
          refine ⟨?_, List.filter_sublist _, List.Sublist.refl _, ?_, fun q hq _ => hq⟩
          · intro g hg
            exact ⟨fupd_ne _ _ hg, fupd_ne _ _ hg, rfl⟩
          · intro g hg hgf
            exact List.mem_filter.mpr ⟨hg, by simp [hgf]⟩
      | none =>
          cases hfind2 : r.cache_frame_.find? (fun q => r.evictable_ q.1) with
          | some p =>
              obtain ⟨hpev, c₁, c₂, hceq, hc₁⟩ := find?_eq_some_split hfind2
              have hep : r.cache_frame_.eraseP (fun q => r.evictable_ q.1) = c₁ ++ c₂ := by
                rw [hceq]
                exact @eraseP_append_left_false (Int × Nat) (fun q => r.evictable_ q.1) c₂ p
                  hpev c₁ hc₁
              rw [evict_cache r p hsz hfind hfind2] at he
              injection he with h12
              injection h12 with ha hb
              subst ha
              subst hb
              refine ⟨?_, List.Sublist.refl _, List.eraseP_sublist _, fun g hg _ => hg, ?_⟩
              · intro g hg
                exact ⟨fupd_ne _ _ hg, fupd_ne _ _ hg, rfl⟩
              · intro q hq hq1
                rw [hep]
                rw [hceq] at hq
                rcases List.mem_append.mp hq with hm | hm
                · exact List.mem_append.mpr (Or.inl hm)
                · rcases List.mem_cons.mp hm with rfl | hm'
                  · exact absurd rfl hq1
                  · exact List.mem_append.mpr (Or.inr hm')
          | none =>
              rw [evict_not_found r hfind hfind2] at he
              cases he
  · by_cases hle : f > (r.replacer_size_ : Int)
    · rw [remove_err r f hle] at he
      cases he
    · by_cases hev : r.evictable_ f = false
      · rw [remove_not_evictable r f hle hev] at he
        cases he
      · have hevT : r.evictable_ f = true := by
          cases hb : r.evictable_ f
          · exact absurd hb hev
          · rfl
        by_cases hcnt : r.recorded_cnt_ f = 0
        · rw [remove_noop r f hle hevT hcnt] at he
          injection he with h'
          subst h'
          exact ⟨fun g _ => ⟨rfl, rfl, rfl⟩, List.Sublist.refl _, List.Sublist.refl _,
            fun g hg _ => hg, fun q hq _ => hq⟩
        · by_cases hlt : r.recorded_cnt_ f < r.k_
          · rw [remove_early r f hle hevT hcnt hlt] at he
            injection he with h'
            subst h'
            refine ⟨?_, List.eraseP_sublist _, List.Sublist.refl _, ?_, fun q hq _ => hq⟩
            · intro g hg
              exact ⟨fupd_ne _ _ hg, fupd_ne _ _ hg, rfl⟩
            · intro g hg hgf
              exact mem_eraseP_of_ne hg (by simp [hgf])
          · rw [remove_cache r f hle hevT hcnt hlt] at he
            injection he with h'
            subst h'
            refine ⟨?_, List.Sublist.refl _, List.eraseP_sublist _, fun g hg _ => hg, ?_⟩
            · intro g hg
              exact ⟨fupd_ne _ _ hg, fupd_ne _ _ hg, rfl⟩
            · intro q hq hq1
              exact mem_eraseP_of_ne hq (by simp [hq1])

/-- Witness for C9: evicting frame 1 out of a two-frame Early Set. -/
theorem retire_isolation_c9_witness :
    ((runOps (LRUKReplacer.init 4 2) [Op.record 1, Op.record 2]).Evict =
      some (1, evictState (runOps (LRUKReplacer.init 4 2) [Op.record 1, Op.record 2])) ∨
      (runOps (LRUKReplacer.init 4 2) [Op.record 1, Op.record 2]).Remove 1 =
        .ok (evictState (runOps (LRUKReplacer.init 4 2) [Op.record 1, Op.record 2]))) ∧
    ((∀ g : Int, g ≠ 1 →
      (evictState (runOps (LRUKReplacer.init 4 2) [Op.record 1, Op.record 2])).hist g =
        (runOps (LRUKReplacer.init 4 2) [Op.record 1, Op.record 2]).hist g ∧
      (evictState (runOps (LRUKReplacer.init 4 2) [Op.record 1, Op.record 2])).recorded_cnt_ g =
        (runOps (LRUKReplacer.init 4 2) [Op.record 1, Op.record 2]).recorded_cnt_ g ∧
      (evictState (runOps (LRUKReplacer.init 4 2) [Op.record 1, Op.record 2])).evictable_ g =
        (runOps (LRUKReplacer.init 4 2) [Op.record 1, Op.record 2]).evictable_ g) ∧
    (evictState (runOps (LRUKReplacer.init 4 2) [Op.record 1, Op.record 2])).new_frame_.Sublist
      (runOps (LRUKReplacer.init 4 2) [Op.record 1, Op.record 2]).new_frame_ ∧
    (evictState (runOps (LRUKReplacer.init 4 2) [Op.record 1, Op.record 2])).cache_frame_.Sublist
      (runOps (LRUKReplacer.init 4 2) [Op.record 1, Op.record 2]).cache_frame_ ∧
    (∀ g ∈ (runOps (LRUKReplacer.init 4 2) [Op.record 1, Op.record 2]).new_frame_, g ≠ 1 →
      g ∈ (evictState (runOps (LRUKReplacer.init 4 2) [Op.record 1, Op.record 2])).new_frame_) ∧
    (∀ q ∈ (runOps (LRUKReplacer.init 4 2) [Op.record 1, Op.record 2]).cache_frame_, q.1 ≠ 1 →
      q ∈ (evictState (runOps (LRUKReplacer.init 4 2) [Op.record 1, Op.record 2])).cache_frame_)) :=
  ⟨Or.inl rfl,
   retire_isolation_c9 (runOps (LRUKReplacer.init 4 2) [Op.record 1, Op.record 2]) 1
     (evictState (runOps (LRUKReplacer.init 4 2) [Op.record 1, Op.record 2])) (Or.inl rfl)⟩

/-- The full selection contract of `Evict` on a reachable state:
(a) the first evictable Early-Set frame in oldest-to-newest order wins,
and on success count and history are cleared, the frame leaves its set
and `Size` drops by one; (b) with no evictable Early frame, the first
evictable Stable entry in list order (ascending Kth-back timestamp, by
sortedness) wins, with the same effects; (c) with no evictable frame at
all, `Evict` reports not-found; (d) with at least one evictable tracked
frame, `Evict` succeeds; (e) a Stable frame is never returned while some
Early frame is evictable; and the Stable list is sorted. -/
def C1Post (r : LRUKReplacer) : Prop :=
  (∀ f : Int, r.new_frame_.reverse.find? (fun g => r.evictable_ g) = some f →
    ∃ r', r.Evict = some (f, r') ∧ r'.recorded_cnt_ f = 0 ∧ r'.hist f = [] ∧
      f ∉ tracked r' ∧ r'.curr_size_ = r.curr_size_ - 1 ∧ 1 ≤ r.curr_size_) ∧
  (r.new_frame_.reverse.find? (fun g => r.evictable_ g) = none →
    ∀ p : Int × Nat, r.cache_frame_.find? (fun q => r.evictable_ q.1) = some p →
      ∃ r', r.Evict = some (p.1, r') ∧ r'.recorded_cnt_ p.1 = 0 ∧ r'.hist p.1 = [] ∧
        p.1 ∉ tracked r' ∧ r'.curr_size_ = r.curr_size_ - 1 ∧ 1 ≤ r.curr_size_) ∧
  ((∀ f ∈ tracked r, r.evictable_ f = false) → r.Evict = none) ∧
  ((∃ f ∈ tracked r, r.evictable_ f = true) → r.Evict.isSome = true) ∧
  (∀ (f : Int) (r' : LRUKReplacer), r.Evict = some (f, r') →
    f ∈ r.cache_frame_.map Prod.fst → ∀ g ∈ r.new_frame_, r.evictable_ g = false) ∧
  r.cache_frame_.Pairwise (fun a b => a.2 ≤ b.2)

/-- C1: the eviction order described by the spec holds in every reachable
state of a replacer built with k ≥ 1. -/
theorem evict_selection_c1 (cap k : Nat) (ops : List Op) (r : LRUKReplacer)
    (hk : 1 ≤ k) (hr : r = runOps (LRUKReplacer.init cap k) ops) : C1Post r := by
  have h : Inv r := hr ▸ inv_reach cap k ops hk
  refine ⟨?_, ?_, ?_, ?_, ?_, h.sorted⟩
  · intro f hfind
    have hev : r.evictable_ f = true := by simpa using List.find?_some hfind
    have hfmem : f ∈ r.new_frame_ := List.mem_reverse.mp (List.mem_of_find?_eq_some hfind)
    have htr : f ∈ tracked r := List.mem_append.mpr (Or.inl hfmem)
    have hpos : 1 ≤ r.curr_size_ := by
      rw [h.size_eq]
      exact List.length_pos_of_mem (List.mem_filter.mpr ⟨htr, hev⟩)
    have hsz : ¬ r.Size = 0 := by
      unfold LRUKReplacer.Size
      omega
    refine ⟨_, evict_early r f hsz hfind, fupd_same _ _ _, fupd_same _ _ _, ?_, rfl, hpos⟩
    intro hmem
    rcases List.mem_append.mp hmem with hm | hm
    · have := (List.mem_filter.mp hm).2
      simp at this
    · exact h.disjoint hfmem hm
  · intro hnone p hp
    have hev : r.evictable_ p.1 = true := by simpa using List.find?_some hp
    have hpmem : p ∈ r.cache_frame_ := List.mem_of_find?_eq_some hp
    have htr : p.1 ∈ tracked r :=
      List.mem_append.mpr (Or.inr (List.mem_map_of_mem Prod.fst hpmem))
    have hpos : 1 ≤ r.curr_size_ := by
      rw [h.size_eq]
      exact List.length_pos_of_mem (List.mem_filter.mpr ⟨htr, hev⟩)
    have hsz : ¬ r.Size = 0 := by
      unfold LRUKReplacer.Size
      omega
    obtain ⟨hpev, c₁, c₂, hceq, hc₁⟩ := find?_eq_some_split hp
    have hep : r.cache_frame_.eraseP (fun q => r.evictable_ q.1) = c₁ ++ c₂ := by
      rw [hceq]
      exact @eraseP_append_left_false (Int × Nat) (fun q => r.evictable_ q.1) c₂ p hpev c₁ hc₁
    have hfstnd : ((c₁ ++ p :: c₂).map Prod.fst).Nodup := by
      rw [← hceq]
      exact h.cachefst_nodup
    refine ⟨_, evict_cache r p hsz hnone hp, fupd_same _ _ _, fupd_same _ _ _, ?_, rfl, hpos⟩
    intro hmem
    rcases List.mem_append.mp hmem with hm | hm
    · exact absurd (List.mem_map_of_mem Prod.fst hpmem) (h.disjoint hm)
    · rw [hep] at hm
      obtain ⟨q, hq, hq1⟩ := List.mem_map.mp hm
      exact fst_ne_of_split hfstnd q hq hq1
  · intro hall
    refine evict_not_found r ?_ ?_
    · rw [List.find?_eq_none]
      intro x hx
      simp [hall x (List.mem_append.mpr (Or.inl (List.mem_reverse.mp hx)))]
    · rw [List.find?_eq_none]
      intro q hq
      simp [hall q.1 (List.mem_append.mpr (Or.inr (List.mem_map_of_mem Prod.fst hq)))]
  · rintro ⟨f, hf, hev⟩
    have hpos : 1 ≤ r.curr_size_ := by
      rw [h.size_eq]
      exact List.length_pos_of_mem (List.mem_filter.mpr ⟨hf, hev⟩)
    have hsz : ¬ r.Size = 0 := by
      unfold LRUKReplacer.Size
      omega
    cases hfind : r.new_frame_.reverse.find? (fun g => r.evictable_ g) with
    | some g₀ =>
        rw [evict_early r g₀ hsz hfind]
        rfl
    | none =>
        have hfnew : f ∉ r.new_frame_ := fun hm => by
          have := List.find?_eq_none.mp hfind f (List.mem_reverse.mpr hm)
          simp [hev] at this
        have hfc : f ∈ r.cache_frame_.map Prod.fst := by
          rcases List.mem_append.mp hf with hm | hm
          · exact absurd hm hfnew
          · exact hm
        obtain ⟨q, hq, hq1⟩ := List.mem_map.mp hfc
        cases hfind2 : r.cache_frame_.find? (fun s => r.evictable_ s.1) with
        | some p =>
            rw [evict_cache r p hsz hfind hfind2]
            rfl
        | none =>
            have hcontra := List.find?_eq_none.mp hfind2 q hq
            rw [hq1] at hcontra
            simp [hev] at hcontra
  · intro f r' hevict hfcache g hg
    by_cases hsz : r.Size = 0
    · rw [evict_size_zero r hsz] at hevict
      cases hevict
    · cases hfind : r.new_frame_.reverse.find? (fun g => r.evictable_ g) with
      | some g₀ =>
          rw [evict_early r g₀ hsz hfind] at hevict
          injection hevict with h12
          injection h12 with ha hb
          subst ha
          have hg₀ : _ ∈ r.new_frame_ :=
            List.mem_reverse.mp (List.mem_of_find?_eq_some hfind)
          exact absurd hfcache (h.disjoint hg₀)
      | none =>
          have := List.find?_eq_none.mp hfind g (List.mem_reverse.mpr hg)
          simpa using this

/-- Witness for C1 on a concrete two-frame Early Set. -/
theorem evict_selection_c1_witness :
    (1 : Nat) ≤ 2 ∧ C1Post (runOps (LRUKReplacer.init 7 2) [Op.record 1, Op.record 2]) :=
  ⟨by decide, evict_selection_c1 7 2 [Op.record 1, Op.record 2] _ (by decide) rfl⟩

/-- C7 counterexample: with k = 1, the frame returned by `Evict` is, on
its next `RecordAccess`, promoted immediately to the Stable Set (as any
brand-new frame is when k = 1) — it is not left at the most-recent end of
the Early Set, which stays empty. -/
theorem reaccess_after_evict_c7_cex :
    ((runOps (LRUKReplacer.init 4 1) [Op.record 1]).Evict).map Prod.fst = some 1 ∧
    (runOps (LRUKReplacer.init 4 1) [Op.record 1, Op.evict, Op.record 1]).recorded_cnt_ 1 = 1 ∧
    (runOps (LRUKReplacer.init 4 1) [Op.record 1, Op.evict, Op.record 1]).evictable_ 1 = true ∧
    (runOps (LRUKReplacer.init 4 1) [Op.record 1, Op.evict, Op.record 1]).new_frame_ = [] ∧
    (runOps (LRUKReplacer.init 4 1)
      [Op.record 1, Op.evict, Op.record 1]).cache_frame_.map Prod.fst = [1] := by
  decide

/-- C7 amended: after `Evict` returns `f` or `Remove f` succeeds on a
reachable state, the next `RecordAccess f` treats `f` as brand new: count
restarts at 1, the history holds exactly the new timestamp, the evictable
flag is set, and — when k ≥ 2 — `f` sits at the most-recent end of the
Early Set; for k = 1 it is promoted immediately to the Stable Set. -/
theorem reaccess_after_evict_c7 (cap k : Nat) (ops : List Op) (r r' : LRUKReplacer) (f : Int)
    (hk : 1 ≤ k) (hr : r = runOps (LRUKReplacer.init cap k) ops)
    (h' : r.Evict = some (f, r') ∨ r.Remove f = .ok r') :
    ∃ r'', r'.RecordAccess f = .ok r'' ∧ r''.recorded_cnt_ f = 1 ∧
      r''.hist f = [r''.current_timestamp_] ∧ r''.evictable_ f = true ∧
      (2 ≤ k → r''.new_frame_.head? = some f) ∧
      (k = 1 → f ∈ r''.cache_frame_.map Prod.fst) := by
  have h : Inv r := hr ▸ inv_reach cap k ops hk
  have hrk : r.k_ = k := hr ▸ (runOps_init_k cap k ops hk).1
  obtain ⟨h0, hist0, hkk, hcap, hfle⟩ :=
    h'.elim (evict_ok_dest r h f r') (remove_ok_dest r h f r')
  have hle' : ¬ f > (r'.replacer_size_ : Int) := by
    rw [hcap]
    exact not_lt.mpr hfle
  have hkk' : r'.k_ = k := hkk.trans hrk
  by_cases hk1 : k = 1
  · have hk1' : r'.k_ = 1 := by rw [hkk', hk1]
    refine ⟨_, recordAccess_fresh_k1 r' f hle' h0 hk1', fupd_same _ _ _, ?_, fupd_same _ _ _,
      ?_, ?_⟩
    · show fupd r'.hist f (r'.hist f ++ [r'.current_timestamp_ + 1]) f =
        [r'.current_timestamp_ + 1]
      rw [fupd_same, hist0]
      rfl
    · intro h2
      omega
    · intro _
      exact List.mem_map.mpr ⟨_, mem_insertUpperBound.mpr (Or.inl rfl), rfl⟩
  · have hk1' : r'.k_ ≠ 1 := by rw [hkk']; exact hk1
    have hkpos' : 1 ≤ r'.k_ := by rw [hkk']; exact hk
    refine ⟨_, recordAccess_fresh r' f hle' h0 hkpos' hk1', fupd_same _ _ _, ?_, fupd_same _ _ _,
      ?_, ?_⟩
    · show fupd r'.hist f (r'.hist f ++ [r'.current_timestamp_ + 1]) f =
        [r'.current_timestamp_ + 1]
      rw [fupd_same, hist0]
      rfl
    · intro _
      rfl
    · intro h1
      exact absurd h1 hk1

/-- Witness for the amended C7: evict frame 1 and access it again. -/
theorem reaccess_after_evict_c7_witness :
    (1 : Nat) ≤ 2 ∧
    ((runOps (LRUKReplacer.init 4 2) [Op.record 1, Op.record 2]).Evict =
      some (1, evictState (runOps (LRUKReplacer.init 4 2) [Op.record 1, Op.record 2])) ∨
     (runOps (LRUKReplacer.init 4 2) [Op.record 1, Op.record 2]).Remove 1 =
      .ok (evictState (runOps (LRUKReplacer.init 4 2) [Op.record 1, Op.record 2]))) ∧
    (∃ r'', (evictState (runOps (LRUKReplacer.init 4 2)
        [Op.record 1, Op.record 2])).RecordAccess 1 = .ok r'' ∧
      r''.recorded_cnt_ 1 = 1 ∧ r''.hist 1 = [r''.current_timestamp_] ∧
      r''.evictable_ 1 = true ∧
      (2 ≤ 2 → r''.new_frame_.head? = some 1) ∧
      ((2 : Nat) = 1 → (1 : Int) ∈ r''.cache_frame_.map Prod.fst)) :=
  ⟨by decide, Or.inl rfl,
   reaccess_after_evict_c7 4 2 [Op.record 1, Op.record 2]
     (runOps (LRUKReplacer.init 4 2) [Op.record 1, Op.record 2])
     (evictState (runOps (LRUKReplacer.init 4 2) [Op.record 1, Op.record 2])) 1
     (by decide) rfl (Or.inl rfl)⟩

end LRUK
